import Mathlib

/-!
Shallow embedding of `src/pandas_dwm.py` (module `pandas_dwm`), a thin
pandas/awswrangler wrapper: relations are ordered columns over ordered rows of
cell values.  Pandas itself is an external collaborator; the behaviour of the
pandas primitives the wrapper calls (`pd.merge`, `groupby(...).sum()`,
column assignment `df[c] = s`, `Index.difference`, `.dt` accessors) is modelled
over this value domain following their documented semantics.  The wrapper
functions themselves (`join`, `groupby`, `_drop_y`, `load_date_partition_cols`,
the column operators, and the delete-path helpers) are translated
statement-by-statement from the source.
-/

namespace PandasDwm

/-- Cell values of a relation: integers, strings, rationals (for `mean`),
timestamps (calendar dates), and the null/NaN marker. -/
inductive Val where
  | vInt : Int → Val
  | vStr : String → Val
  | vRat : Rat → Val
  | vDate : Nat → Nat → Nat → Val
  | vNull : Val
deriving DecidableEq, Repr

instance : Inhabited Val := ⟨Val.vNull⟩

/-- A relation (pandas DataFrame): an ordered list of column names and an
ordered list of rows; in a well-formed relation every row has one cell per
column. -/
structure Rel where
  cols : List String
  rows : List (List Val)
deriving DecidableEq, Repr

/-- Well-formedness: every row has exactly one cell per declared column. -/
def WF (df : Rel) : Prop := ∀ r ∈ df.rows, r.length = df.cols.length

instance : DecidablePred WF := fun df =>
  inferInstanceAs (Decidable (∀ r ∈ df.rows, r.length = df.cols.length))

/-- Index of the first column named `c` (length of the list when absent);
models positional lookup of a pandas column label. -/
def idxOf (cols : List String) (c : String) : Nat :=
  match cols with
  | [] => 0
  | x :: t => if x = c then 0 else idxOf t c + 1

/-- Cell of row `r` at column `c` (null when absent). -/
def getAt (cols : List String) (r : List Val) (c : String) : Val :=
  r.getD (idxOf cols c) Val.vNull

/-- The value sequence of column `c` (one entry per row). -/
def colVals (df : Rel) (c : String) : List Val :=
  df.rows.map (fun r => getAt df.cols r c)

/-- Cell at row `i`, column `c`. -/
def getCell (df : Rel) (c : String) (i : Nat) : Val :=
  getAt df.cols (df.rows.getD i []) c

/-- Error conditions raised by the wrapper or by the pandas collaborator.
The source raises plain `Exception`s; constructors model the distinct raise
sites. -/
inductive Err where
  | invalidJoinSpec
  | mergeError
  | keyError
  | howError
  | aggError
  | partitionKeyError
  | typeMismatch
deriving DecidableEq, Repr

/-- Column-name effect of the pandas column assignment `df[n] = s`: an
existing column keeps its place, a new one is appended. -/
def colsWrite (cols : List String) (n : String) : List String :=
  if n ∈ cols then cols else cols ++ [n]

/-- Row-level effect of `df[n] = s`: overwrite the cell at the column's
position, or append the new cell. -/
def rowWrite (cols : List String) (r : List Val) (n : String) (v : Val) : List Val :=
  if n ∈ cols then r.set (idxOf cols n) v else r ++ [v]

/-- The pandas column assignment `df[n] = vs` (overwriting an existing
column of that name, else appending it). -/
def setCol (df : Rel) (n : String) (vs : List Val) : Rel :=
  ⟨colsWrite df.cols n, (df.rows.zip vs).map (fun p => rowWrite df.cols p.1 n p.2)⟩

/-- Boolean suffix test over the character data (the Python
`x.endswith(pat)`). -/
def strEndsWith (s pat : String) : Bool :=
  decide (s.data.reverse.take pat.data.length = pat.data.reverse)

/-- Lexicographic order on character lists by code point. -/
def charListLe : List Char → List Char → Bool
  | [], _ => true
  | _ :: _, [] => false
  | a :: as_, b :: bs => if a = b then charListLe as_ bs else decide (a.val.toNat ≤ b.val.toNat)

/-- Lexicographic order on strings (the order pandas sorts string labels
by). -/
def strLe (a b : String) : Bool := charListLe a.data b.data

/-- Propositional form of `strLe`, for the sorting lemmas. -/
def strLeP (a b : String) : Prop := strLe a b = true

instance : DecidableRel strLeP := fun x y => inferInstanceAs (Decidable (strLe x y = true))

instance {ε α : Type} [DecidableEq ε] [DecidableEq α] : DecidableEq (Except ε α) := fun a b =>
  match a, b with
  | .ok x, .ok y => decidable_of_iff (x = y) (by simp)
  | .error x, .error y => decidable_of_iff (x = y) (by simp)
  | .ok _, .error _ => isFalse (by simp)
  | .error _, .ok _ => isFalse (by simp)

/-! ## Column operators (source lines 13-140) -/

/-- Source `create_df(cols, rows)`: `pd.DataFrame(rows, columns=cols)`. -/
def create_df (cols : List String) (rows : List (List Val)) : Rel := ⟨cols, rows⟩

/-- Conversion of one cell under `astype` for the target types the wrapper is
used with. -/
def castVal (t : String) (v : Val) : Except Err Val :=
  if t = "str" then
    match v with
    | .vInt n => .ok (.vStr (toString n))
    | .vStr s => .ok (.vStr s)
    | .vRat q => .ok (.vStr (toString q))
    | .vDate y m d => .ok (.vStr (toString y ++ "-" ++ toString m ++ "-" ++ toString d))
    | .vNull => .error .typeMismatch
  else if t = "int" then
    match v with
    | .vInt n => .ok (.vInt n)
    | .vStr s => match s.toInt? with | some n => .ok (.vInt n) | none => .error .typeMismatch
    | .vRat q => .ok (.vInt q.floor)
    | _ => .error .typeMismatch
  else if t = "float" then
    match v with
    | .vInt n => .ok (.vRat n)
    | .vRat q => .ok (.vRat q)
    | _ => .error .typeMismatch
  else .error .typeMismatch

/-- Source `cast_column(df, col, _type)`: `df[col].astype(_type)` - returns the
casted column, failing when some cell cannot convert. -/
def cast_column (df : Rel) (col : String) (t : String) : Except Err (List Val) :=
  if col ∈ df.cols then (colVals df col).mapM (castVal t) else .error .keyError

/-- Source `drop_columns(df, cols)`: `df.drop(columns=cols)` - a new relation
without the named columns; unknown names raise `KeyError`. -/
def drop_columns (df : Rel) (cs : List String) : Except Err Rel :=
  if ∀ c ∈ cs, c ∈ df.cols then
    .ok ⟨df.cols.filter (fun c => c ∉ cs),
         df.rows.map (fun r =>
           (df.cols.zip r).filterMap (fun p => if p.1 ∈ cs then none else some p.2))⟩
  else .error .keyError

/-- Source `filter_column(df, col, list_of_values)`:
`df[df[col].isin(list_of_values)]`. -/
def filter_column (df : Rel) (col : String) (vals : List Val) : Except Err Rel :=
  if col ∈ df.cols then
    .ok ⟨df.cols, df.rows.filter (fun r => getAt df.cols r col ∈ vals)⟩
  else .error .keyError

/-- Source `get_columns_difference(df1, df2)`:
`df1.columns.difference(df2.columns)` - the names of `df1` absent from `df2`,
deduplicated and in lexicographic order (pandas `Index.difference` sorts). -/
def get_columns_difference (df1 df2 : Rel) : List String :=
  List.insertionSort strLeP ((df1.cols.filter (fun c => c ∉ df2.cols)).dedup)

/-- Source `select_columns(df, cols)`: `df[cols].copy()`. -/
def select_columns (df : Rel) (cs : List String) : Except Err Rel :=
  if ∀ c ∈ cs, c ∈ df.cols then
    .ok ⟨cs, df.rows.map (fun r => cs.map (fun c => getAt df.cols r c))⟩
  else .error .keyError

/-- Source `apply_lambda(df, col, func, empty)`: per-cell map of `func` over
`df[col]`; with `empty` the function is invoked with no argument once per row.
The duck-typed `func` is modelled as a function on argument lists. -/
def apply_lambda (df : Rel) (col : String) (func : List Val → Val) (empty : Bool) :
    Except Err (List Val) :=
  if col ∈ df.cols then
    if empty then .ok ((colVals df col).map (fun _ => func []))
    else .ok ((colVals df col).map (fun x => func [x]))
  else .error .keyError

/-- Source `apply_df_lambda(df, cols, func)`:
`df.apply(lambda row: func(*(row[cols])), axis=1)`. -/
def apply_df_lambda (df : Rel) (cs : List String) (func : List Val → Val) :
    Except Err (List Val) :=
  if ∀ c ∈ cs, c ∈ df.cols then
    .ok (df.rows.map (fun r => func (cs.map (fun c => getAt df.cols r c))))
  else .error .keyError

/-- Source `load_const_column(df, col, const)`: in-place `df[col] = const`
setting every row, then returning the same (mutated) relation. -/
def load_const_column (df : Rel) (col : String) (c : Val) : Rel :=
  setCol df col (List.replicate df.rows.length c)

/-- Source `drop_duplicates(df)`: `df.drop_duplicates()` keeping first
occurrences. -/
def dedupRows (seen : List (List Val)) : List (List Val) → List (List Val)
  | [] => []
  | r :: t => if r ∈ seen then dedupRows seen t else r :: dedupRows (r :: seen) t

/-- Source `drop_duplicates(df)`. -/
def drop_duplicates (df : Rel) : Rel := ⟨df.cols, dedupRows [] df.rows⟩

/-! ## Join (source lines 70-93 and 174-177) -/

/-- Right-hand suffixed name of a `df2` column under `pd.merge` suffixing:
a non-key name also present in `df1` receives the right suffix. -/
def rightName (cols1 : List String) (ks : List String) (suf : String) (c : String) : String :=
  if c ∈ cols1 ∧ c ∉ ks then c ++ suf else c

/-- Left-hand suffixed name of a `df1` column under `pd.merge` suffixing. -/
def leftName (cols2 : List String) (ks : List String) (suf : String) (c : String) : String :=
  if c ∈ cols2 ∧ c ∉ ks then c ++ suf else c

/-- Values of the non-key columns of a right row (key columns are not
repeated in a shared-key merge result). -/
def rightRest (cols2 : List String) (ks : List String) (rr : List Val) : List Val :=
  (cols2.zip rr).filterMap (fun p => if p.1 ∈ ks then none else some p.2)

/-- Row of nulls standing for an unmatched right side (one per non-key right
column). -/
def rightNulls (cols2 : List String) (ks : List String) : List Val :=
  List.replicate (cols2.filter (fun c => c ∉ ks)).length Val.vNull

/-- Left part of an unmatched right row in a right/outer merge: key values
taken from the right row, the other left columns null. -/
def leftFromRight (cols1 cols2 : List String) (ks : List String) (rr : List Val) : List Val :=
  cols1.map (fun c => if c ∈ ks then getAt cols2 rr c else Val.vNull)

/-- Shared-key `pd.merge(df1, df2, on=ks, how=how, suffixes=suf)`: colliding
non-key names are suffixed, key columns appear once, rows follow the left
frame's order (matched right rows in right-frame order; unmatched sides are
null-padded for the non-inner kinds). -/
def mergeOnKeys (df1 df2 : Rel) (ks : List String) (how : String) (suf : String × String) :
    Except Err Rel :=
  if ¬ (how = "inner" ∨ how = "left" ∨ how = "right" ∨ how = "outer") then .error .howError
  else if ¬ ((∀ k ∈ ks, k ∈ df1.cols) ∧ (∀ k ∈ ks, k ∈ df2.cols)) then .error .keyError
  else
    .ok ⟨df1.cols.map (leftName df2.cols ks suf.1)
        ++ (df2.cols.filter (fun c => c ∉ ks)).map (rightName df1.cols ks suf.2),
      if how = "inner" then
        df1.rows.flatMap (fun lr =>
          (df2.rows.filter (fun rr =>
              decide (∀ k ∈ ks, getAt df1.cols lr k = getAt df2.cols rr k))).map
            (fun rr => lr ++ rightRest df2.cols ks rr))
      else if how = "left" then
        df1.rows.flatMap (fun lr =>
          if df2.rows.filter (fun rr =>
              decide (∀ k ∈ ks, getAt df1.cols lr k = getAt df2.cols rr k)) = [] then
            [lr ++ rightNulls df2.cols ks]
          else
            (df2.rows.filter (fun rr =>
                decide (∀ k ∈ ks, getAt df1.cols lr k = getAt df2.cols rr k))).map
              (fun rr => lr ++ rightRest df2.cols ks rr))
      else if how = "right" then
        df2.rows.flatMap (fun rr =>
          if df1.rows.filter (fun lr =>
              decide (∀ k ∈ ks, getAt df1.cols lr k = getAt df2.cols rr k)) = [] then
            [leftFromRight df1.cols df2.cols ks rr ++ rightRest df2.cols ks rr]
          else
            (df1.rows.filter (fun lr =>
                decide (∀ k ∈ ks, getAt df1.cols lr k = getAt df2.cols rr k))).map
              (fun lr => lr ++ rightRest df2.cols ks rr))
      else
        df1.rows.flatMap (fun lr =>
          if df2.rows.filter (fun rr =>
              decide (∀ k ∈ ks, getAt df1.cols lr k = getAt df2.cols rr k)) = [] then
            [lr ++ rightNulls df2.cols ks]
          else
            (df2.rows.filter (fun rr =>
                decide (∀ k ∈ ks, getAt df1.cols lr k = getAt df2.cols rr k))).map
              (fun rr => lr ++ rightRest df2.cols ks rr))
        ++ (df2.rows.filter (fun rr =>
              decide (∀ lr ∈ df1.rows, ¬ ∀ k ∈ ks,
                getAt df1.cols lr k = getAt df2.cols rr k))).map
            (fun rr => leftFromRight df1.cols df2.cols ks rr ++ rightRest df2.cols ks rr)⟩

/-- Paired-key `pd.merge(df1, df2, left_on=l, right_on=r, ...)`: both key
column lists are kept in the result, every colliding name is suffixed. -/
def mergePairKeys (df1 df2 : Rel) (lk rk : List String) (how : String) (suf : String × String) :
    Except Err Rel :=
  if ¬ (how = "inner" ∨ how = "left" ∨ how = "right" ∨ how = "outer") then .error .howError
  else if lk.length ≠ rk.length then .error .mergeError
  else if ¬ ((∀ k ∈ lk, k ∈ df1.cols) ∧ (∀ k ∈ rk, k ∈ df2.cols)) then .error .keyError
  else
    .ok ⟨df1.cols.map (leftName df2.cols [] suf.1) ++ df2.cols.map (rightName df1.cols [] suf.2),
      if how = "inner" then
        df1.rows.flatMap (fun lr =>
          (df2.rows.filter (fun rr =>
              decide (∀ p ∈ lk.zip rk, getAt df1.cols lr p.1 = getAt df2.cols rr p.2))).map
            (fun rr => lr ++ rr))
      else if how = "left" then
        df1.rows.flatMap (fun lr =>
          if df2.rows.filter (fun rr =>
              decide (∀ p ∈ lk.zip rk, getAt df1.cols lr p.1 = getAt df2.cols rr p.2)) = [] then
            [lr ++ List.replicate df2.cols.length Val.vNull]
          else
            (df2.rows.filter (fun rr =>
                decide (∀ p ∈ lk.zip rk, getAt df1.cols lr p.1 = getAt df2.cols rr p.2))).map
              (fun rr => lr ++ rr))
      else if how = "right" then
        df2.rows.flatMap (fun rr =>
          if df1.rows.filter (fun lr =>
              decide (∀ p ∈ lk.zip rk, getAt df1.cols lr p.1 = getAt df2.cols rr p.2)) = [] then
            [List.replicate df1.cols.length Val.vNull ++ rr]
          else
            (df1.rows.filter (fun lr =>
                decide (∀ p ∈ lk.zip rk, getAt df1.cols lr p.1 = getAt df2.cols rr p.2))).map
              (fun lr => lr ++ rr))
      else
        df1.rows.flatMap (fun lr =>
          if df2.rows.filter (fun rr =>
              decide (∀ p ∈ lk.zip rk, getAt df1.cols lr p.1 = getAt df2.cols rr p.2)) = [] then
            [lr ++ List.replicate df2.cols.length Val.vNull]
          else
            (df2.rows.filter (fun rr =>
                decide (∀ p ∈ lk.zip rk, getAt df1.cols lr p.1 = getAt df2.cols rr p.2))).map
              (fun rr => lr ++ rr))
        ++ (df2.rows.filter (fun rr =>
              decide (∀ lr ∈ df1.rows, ¬ ∀ p ∈ lk.zip rk,
                getAt df1.cols lr p.1 = getAt df2.cols rr p.2))).map
            (fun rr => List.replicate df1.cols.length Val.vNull ++ rr)⟩

/-- The pandas entry point `pd.merge(df1, df2, left_on=.., right_on=.., on=..,
how=.., suffixes=..)`: with no keys at all, pandas merges on the columns the
frames have in common (raising `MergeError` when there are none); passing only
one of `left_on`/`right_on` is a `MergeError`. -/
def pdMerge (df1 df2 : Rel) (left_on right_on onKeys : Option (List String))
    (how : String) (suf : String × String) : Except Err Rel :=
  match onKeys with
  | some ks => mergeOnKeys df1 df2 ks how suf
  | none =>
    match left_on, right_on with
    | none, none =>
      if df1.cols.filter (fun c => c ∈ df2.cols) = [] then .error .mergeError
      else mergeOnKeys df1 df2 (df1.cols.filter (fun c => c ∈ df2.cols)) how suf
    | some lk, some rk => mergePairKeys df1 df2 lk rk how suf
    | _, _ => .error .mergeError

/-- Source `_drop_y(df)` (lines 174-177): drops, in place, every column of
`df` whose name ends with the literal suffix string of two characters
underscore-y. -/
def drop_y (df : Rel) : Rel :=
  ⟨df.cols.filter (fun c => ¬ strEndsWith c "_y"),
   df.rows.map (fun r =>
     (df.cols.zip r).filterMap (fun p => if strEndsWith p.1 "_y" then none else some p.2))⟩

/-- Source `join(df1, df2, left_on, right_on, on, how, _suffixes)` (lines
70-93): branch on the key arguments exactly as the source does, merge, then
run the `_drop_y` cleanup on the merge result. -/
def join (df1 df2 : Rel) (left_on right_on onKeys : Option (List String))
    (how : String) (suffixes : String × String) : Except Err Rel :=
  match
    (if onKeys.isNone then pdMerge df1 df2 left_on right_on none how suffixes
     else if right_on.isNone && left_on.isNone then pdMerge df1 df2 none none onKeys how suffixes
     else .error .invalidJoinSpec) with
  | .ok df => .ok (drop_y df)
  | .error e => .error e

/-! ## Aggregation (source lines 96-104) -/

/-- Whether a cell is an integer. -/
def Val.isInt : Val → Bool | .vInt _ => true | _ => false

/-- Whether a cell is a string. -/
def Val.isStr : Val → Bool | .vStr _ => true | _ => false

/-- Whether a cell is a date. -/
def Val.isDate : Val → Bool | .vDate _ _ _ => true | _ => false

/-- Integer payload of a cell (0 otherwise). -/
def Val.toIntD : Val → Int | .vInt n => n | _ => 0

/-- String payload of a cell (empty otherwise). -/
def Val.toStrD : Val → String | .vStr s => s | _ => ""

/-- The pandas group reduction `sum` over one column of one group: integer
columns add, string (object) columns concatenate. -/
def sumVals (l : List Val) : Val :=
  if l.all Val.isInt then .vInt (l.foldr (fun v a => v.toIntD + a) 0)
  else if l.all Val.isStr then .vStr (l.foldr (fun v a => v.toStrD ++ a) "")
  else .vNull

/-- The pandas group reduction `mean` over one column of one group. -/
def meanVals (l : List Val) : Val :=
  if l.all Val.isInt then
    if l.length = 0 then .vNull
    else .vRat ((l.foldr (fun v a => v.toIntD + a) 0 : Int) / (l.length : Rat))
  else .vNull

/-- Reduction dispatch for the two reducers the source wires up. -/
def aggRed (agg : String) (l : List Val) : Val :=
  if agg = "sum" then sumVals l else meanVals l

/-- Constructor rank, ordering cells of different kinds. -/
def Val.rank : Val → Nat
  | .vNull => 0 | .vInt _ => 1 | .vRat _ => 2 | .vStr _ => 3 | .vDate _ _ _ => 4

/-- Ascending order on cells: same-kind cells compare by value, different
kinds by rank. -/
def valLe (a b : Val) : Bool :=
  match a, b with
  | .vInt x, .vInt y => decide (x ≤ y)
  | .vRat x, .vRat y => decide (x ≤ y)
  | .vStr x, .vStr y => strLe x y
  | .vDate y1 m1 d1, .vDate y2 m2 d2 =>
      decide (y1 < y2 ∨ (y1 = y2 ∧ (m1 < m2 ∨ (m1 = m2 ∧ d1 ≤ d2))))
  | x, y => decide (x.rank ≤ y.rank)

/-- Lexicographic ascending order on group-key tuples (pandas sorts groups
ascending by key). -/
def keyLe : List Val → List Val → Bool
  | [], _ => true
  | _ :: _, [] => false
  | a :: as_, b :: bs => if a = b then keyLe as_ bs else valLe a b

/-- Propositional form of `keyLe`, for the sorting lemmas. -/
def keyLeP (a b : List Val) : Prop := keyLe a b = true

instance : DecidableRel keyLeP := fun x y => inferInstanceAs (Decidable (keyLe x y = true))

/-- Key tuple of a row for a list of group columns. -/
def keyOf (cols gcols : List String) (r : List Val) : List Val :=
  gcols.map (fun c => getAt cols r c)

/-- The pandas pipeline `df.groupby(gcols)[tcols].agg().reset_index()`:
one output row per distinct key tuple, keys ascending, group columns restored
as plain leading columns. -/
def pdGroupAgg (df : Rel) (gcols tcols : List String) (agg : String) : Except Err Rel :=
  if ¬ (∀ c ∈ gcols, c ∈ df.cols) then .error .keyError
  else if ¬ (∀ c ∈ tcols, c ∈ df.cols) then .error .keyError
  else
    let keys := List.insertionSort keyLeP ((df.rows.map (keyOf df.cols gcols)).dedup)
    .ok ⟨gcols ++ tcols,
      keys.map (fun k => k ++ tcols.map (fun c =>
        aggRed agg ((df.rows.filter (fun r => keyOf df.cols gcols r = k)).map
          (fun r => getAt df.cols r c))))⟩

/-- Source `groupby(df, columns, on, how)` (lines 96-104): dispatch on the
reducer name, raising for anything but `sum` and `mean`. -/
def groupby (df : Rel) (columns onCols : List String) (how : String) : Except Err Rel :=
  if how = "sum" then pdGroupAgg df columns onCols "sum"
  else if how = "mean" then pdGroupAgg df columns onCols "mean"
  else .error .aggError

/-! ## Partition-key derivation (source lines 143-153) -/

/-- Calendar part of a timestamp cell under the `.dt` accessor (none for a
non-timestamp cell or an unknown part name). -/
def dtPart (k : String) (v : Val) : Option Val :=
  match v with
  | .vDate y m d =>
      if k = "year" then some (.vInt y)
      else if k = "month" then some (.vInt m)
      else if k = "day" then some (.vInt d)
      else none
  | _ => none

/-- Total form of `dtPart` (null when undefined). -/
def partNum (k : String) (v : Val) : Val := (dtPart k v).getD .vNull

/-- The pandas column expression `df[col].dt.<k>`: fails unless every cell of
the column is a timestamp. -/
def dtCol (df : Rel) (col : String) (k : String) : Except Err (List Val) :=
  if col ∈ df.cols then
    match (colVals df col).mapM (dtPart k) with
    | some vs => .ok vs
    | none => .error .typeMismatch
  else .error .keyError

/-- One iteration of the source's loop over `partition_cols_config.items()`:
dispatch on the calendar-part key exactly as the source's
if/elif/elif/else does, assigning the extracted column in place. -/
def ldpcStep (df : Rel) (col : String) (kv : String × String) : Except Err Rel :=
  if kv.1 = "year" then (dtCol df col "year").map (fun vs => setCol df kv.2 vs)
  else if kv.1 = "month" then (dtCol df col "month").map (fun vs => setCol df kv.2 vs)
  else if kv.1 = "day" then (dtCol df col "day").map (fun vs => setCol df kv.2 vs)
  else .error .partitionKeyError

/-- The source's default `partition_cols_config` dict, in its insertion
order. -/
def defaultPartitionCfg : List (String × String) :=
  [("year", "p_ano"), ("month", "p_mes"), ("day", "p_dia")]

/-- Source `load_date_partition_cols(df, col, partition_cols_config)` (lines
143-153): an in-place fold of the per-entry assignments; on a raise the
already-mutated relation is what the caller's handle sees, so the result pairs
the state at exit with the raised error (if any). -/
def load_date_partition_cols (df : Rel) (col : String) (cfg : List (String × String)) :
    Rel × Option Err :=
  match cfg with
  | [] => (df, none)
  | kv :: rest =>
    match ldpcStep df col kv with
    | .ok df2 => load_date_partition_cols df2 col rest
    | .error e => (df, some e)

/-- Sequence of pandas column assignments, modelling a run of in-place
writes. -/
def applyWrites (df : Rel) (ws : List (String × List Val)) : Rel :=
  ws.foldl (fun d w => setCol d w.1 w.2) df

/-- The column each derivation entry writes, with the values it writes. -/
def partWrites (vals : List Val) (cfg : List (String × String)) :
    List (String × List Val) :=
  cfg.map (fun kv => (kv.2, vals.map (partNum kv.1)))

/-- The values carried by the last write to column `n` in a write run. -/
def lastValW (ws : List (String × List Val)) (n : String) : List Val :=
  ((ws.filter (fun w => w.1 = n)).map Prod.snd).getLastD []

/-! ## Delete path (source lines 168-171 and 180-201) -/

/-- Split of a character list at a separator character (the Python
`s.split(sep)` for a one-character separator: at least one piece, empty pieces
kept). -/
def splitChar (sep : Char) : List Char → List (List Char)
  | [] => [[]]
  | c :: t =>
    let r := splitChar sep t
    if c = sep then [] :: r else (c :: r.headD []) :: r.tail

/-- The Python `path[5:].split("/")` over the character data. -/
def pathParts (path : String) : List String :=
  (splitChar '/' (path.data.drop 5)).map (fun l => ⟨l⟩)

/-- The Python `"/".join(parts)`. -/
def joinSlash : List String → String
  | [] => ""
  | [s] => s
  | s :: t => s ++ "/" ++ joinSlash t

/-- Source inner helper `bucket_and_key_from_path(path)`: strip the first five
characters, split on the slashes, pop the bucket, rejoin the key. -/
def bucket_and_key_from_path (path : String) : String × String :=
  let parts := pathParts path
  (parts.headD "", joinSlash parts.tail)

/-- Source inner helper `load_itens_to_delete()`: a single pass over the
decomposed paths that overwrites `bucket_name` with each row's bucket (so the
last row's bucket survives) while appending every row's key to one shared
batch. -/
def load_itens_to_delete (paths : List (String × String)) : String × List String :=
  paths.foldl (fun acc t => (t.1, acc.2 ++ [t.2])) ("", [])

/-- The deletion batch `_delete_s3_object` would submit: the decomposition of
each path followed by the single-batch accumulation (the subsequent
`bucket.delete_objects` call is the external bulk-delete collaborator). -/
def delete_batch (paths : List String) : String × List String :=
  load_itens_to_delete (paths.map bucket_and_key_from_path)

/-! ## Reference-store model

Python passes DataFrames by reference, so whether an operator mutates its
argument is observable.  The wrappers below mirror each source function over an
explicit heap of relation objects: reads go through the argument references,
pandas results are fresh allocations, and the only writes are the ones the
source performs (the in-place `_drop_y` on `join`'s own merge result). -/

/-- Heap of relation objects. -/
abbrev Store := List Rel

/-- The empty relation (default object for out-of-range reads). -/
def emptyRel : Rel := ⟨[], []⟩

/-- Dereference a relation object. -/
def readRef (s : Store) (r : Nat) : Rel := List.getD s r emptyRel

/-- Allocate a fresh relation object, returning the new heap and the new
reference. -/
def allocRef (s : Store) (df : Rel) : Store × Nat := (s ++ [df], List.length s)

/-- Overwrite the object behind a reference (in-place mutation). -/
def writeRef (s : Store) (r : Nat) (df : Rel) : Store := List.set s r df

/-- Store-level `cast_column(df, col, _type)`: reads the argument and builds a
fresh series; no writes. -/
def cast_columnS (s : Store) (r : Nat) (col t : String) : Store × Except Err (List Val) :=
  (s, cast_column (readRef s r) col t)

/-- Store-level `select_columns(df, cols)`: `df[cols].copy()` allocates. -/
def select_columnsS (s : Store) (r : Nat) (cs : List String) : Store × Except Err Nat :=
  match select_columns (readRef s r) cs with
  | .ok res => ((allocRef s res).1, .ok (allocRef s res).2)
  | .error e => (s, .error e)

/-- Store-level `drop_columns(df, cols)`: `df.drop(...)` returns a new frame
(the source does not pass `inplace`). -/
def drop_columnsS (s : Store) (r : Nat) (cs : List String) : Store × Except Err Nat :=
  match drop_columns (readRef s r) cs with
  | .ok res => ((allocRef s res).1, .ok (allocRef s res).2)
  | .error e => (s, .error e)

/-- Store-level `filter_column(df, col, list_of_values)`. -/
def filter_columnS (s : Store) (r : Nat) (col : String) (vals : List Val) :
    Store × Except Err Nat :=
  match filter_column (readRef s r) col vals with
  | .ok res => ((allocRef s res).1, .ok (allocRef s res).2)
  | .error e => (s, .error e)

/-- Store-level `get_columns_difference(df1, df2)`: reads only. -/
def get_columns_differenceS (s : Store) (r1 r2 : Nat) : Store × List String :=
  (s, get_columns_difference (readRef s r1) (readRef s r2))

/-- Store-level `apply_lambda(df, col, func, empty)`: builds a fresh series. -/
def apply_lambdaS (s : Store) (r : Nat) (col : String) (func : List Val → Val)
    (empty : Bool) : Store × Except Err (List Val) :=
  (s, apply_lambda (readRef s r) col func empty)

/-- Store-level `apply_df_lambda(df, cols, func)`: builds a fresh series. -/
def apply_df_lambdaS (s : Store) (r : Nat) (cs : List String) (func : List Val → Val) :
    Store × Except Err (List Val) :=
  (s, apply_df_lambda (readRef s r) cs func)

/-- Store-level `join`: the merge result is a fresh object; `_drop_y` then
mutates that fresh object in place (`inplace=True`), never the arguments. -/
def joinS (s : Store) (r1 r2 : Nat) (left_on right_on onKeys : Option (List String))
    (how : String) (suf : String × String) : Store × Except Err Nat :=
  match
    (if onKeys.isNone then pdMerge (readRef s r1) (readRef s r2) left_on right_on none how suf
     else if right_on.isNone && left_on.isNone then
       pdMerge (readRef s r1) (readRef s r2) none none onKeys how suf
     else .error .invalidJoinSpec) with
  | .ok m =>
      let s2 := (allocRef s m).1
      let rm := (allocRef s m).2
      (writeRef s2 rm (drop_y (readRef s2 rm)), .ok rm)
  | .error e => (s, .error e)

/-- Store-level `groupby(df, columns, on, how)`: pandas aggregation allocates
its result. -/
def groupbyS (s : Store) (r : Nat) (gcols tcols : List String) (how : String) :
    Store × Except Err Nat :=
  match groupby (readRef s r) gcols tcols how with
  | .ok res => ((allocRef s res).1, .ok (allocRef s res).2)
  | .error e => (s, .error e)

/-- A heap extension leaves every pre-existing object untouched. -/
def preservesStore (s s2 : Store) : Prop :=
  ∀ i, i < List.length s → readRef s2 i = readRef s i

/-! ## Supporting lemmas: column indices -/

theorem idxOf_lt_length {cols : List String} {c : String} (h : c ∈ cols) :
    idxOf cols c < cols.length := by
  induction cols with
  | nil => cases h
  | cons x t ih =>
    by_cases hx : x = c
    · simp [idxOf, hx]
    · rcases List.mem_cons.mp h with h1 | h2
      · exact absurd h1.symm hx
      · simpa [idxOf, hx] using ih h2

theorem idxOf_eq_length {cols : List String} {c : String} (h : c ∉ cols) :
    idxOf cols c = cols.length := by
  induction cols with
  | nil => rfl
  | cons x t ih =>
    have hx : x ≠ c := fun e => h (e ▸ List.mem_cons_self x t)
    have ht : c ∉ t := fun m => h (List.mem_cons_of_mem x m)
    simp [idxOf, hx, ih ht]

theorem getD_idxOf {cols : List String} {c : String} (h : c ∈ cols) (d : String) :
    cols.getD (idxOf cols c) d = c := by
  induction cols with
  | nil => cases h
  | cons x t ih =>
    by_cases hx : x = c
    · simp [idxOf, hx]
    · rcases List.mem_cons.mp h with h1 | h2
      · exact absurd h1.symm hx
      · simpa [idxOf, hx] using ih h2

theorem idxOf_ne {cols : List String} {c d : String} (hcd : c ≠ d)
    (hc : c ∈ cols) (hd : d ∈ cols) : idxOf cols c ≠ idxOf cols d := by
  intro he
  have h1 := getD_idxOf hc ""
  have h2 := getD_idxOf hd ""
  rw [he, h2] at h1
  exact hcd h1.symm

theorem idxOf_append_left {cols : List String} {c : String} (h : c ∈ cols)
    (ext2 : List String) : idxOf (cols ++ ext2) c = idxOf cols c := by
  induction cols with
  | nil => cases h
  | cons x t ih =>
    by_cases hx : x = c
    · simp [idxOf, hx]
    · rcases List.mem_cons.mp h with h1 | h2
      · exact absurd h1.symm hx
      · simp [idxOf, hx, ih h2]

theorem idxOf_append_self {cols : List String} {c : String} (h : c ∉ cols) :
    idxOf (cols ++ [c]) c = cols.length := by
  induction cols with
  | nil => simp [idxOf]
  | cons x t ih =>
    have hx : x ≠ c := fun e => h (e ▸ List.mem_cons_self x t)
    have ht : c ∉ t := fun m => h (List.mem_cons_of_mem x m)
    simp [idxOf, hx, ih ht]

theorem idxOf_getElem {cols : List String} (hnd : cols.Nodup) {j : Nat}
    (hj : j < cols.length) : idxOf cols (cols[j]) = j := by
  induction cols generalizing j with
  | nil => cases hj
  | cons x t ih =>
    cases j with
    | zero => simp [idxOf]
    | succ k =>
      have hk : k < t.length := by simpa using hj
      have hx : x ≠ t[k] := by
        intro e
        exact (List.nodup_cons.mp hnd).1 (e ▸ List.getElem_mem hk)
      simpa [idxOf, List.getElem_cons_succ, hx] using ih (List.nodup_cons.mp hnd).2 hk

/-! ## Supporting lemmas: the column assignment -/

theorem mem_colsWrite_of_mem {cols : List String} {n m : String} (h : m ∈ cols) :
    m ∈ colsWrite cols n := by
  unfold colsWrite; split
  · exact h
  · exact List.mem_append_left _ h

theorem mem_colsWrite_self (cols : List String) (n : String) : n ∈ colsWrite cols n := by
  unfold colsWrite; split
  · assumption
  · exact List.mem_append_right _ (List.mem_singleton.mpr rfl)

theorem nodup_colsWrite {cols : List String} (h : cols.Nodup) (n : String) :
    (colsWrite cols n).Nodup := by
  unfold colsWrite; split
  · exact h
  · simpa [List.nodup_append] using ⟨h, by assumption⟩

theorem length_rowWrite {cols : List String} {r : List Val} (hr : r.length = cols.length)
    (n : String) (v : Val) : (rowWrite cols r n v).length = (colsWrite cols n).length := by
  unfold rowWrite colsWrite; split
  · simpa using hr
  · simp [hr]

theorem getAt_rowWrite_same {cols : List String} {r : List Val}
    (hr : r.length = cols.length) (n : String) (v : Val) :
    getAt (colsWrite cols n) (rowWrite cols r n v) n = v := by
  unfold getAt rowWrite colsWrite
  by_cases hn : n ∈ cols
  · have hlt : idxOf cols n < r.length := hr ▸ idxOf_lt_length hn
    rw [if_pos hn, if_pos hn, List.getD_eq_getElem _ _ (by simpa using hlt),
      List.getElem_set_self]
  · have he : idxOf (cols ++ [n]) n = cols.length := idxOf_append_self hn
    rw [if_neg hn, if_neg hn, he,
      List.getD_eq_getElem _ _ (by simp [hr]),
      List.getElem_append_right (by simp [hr])]
    simp [hr]

theorem getAt_rowWrite_other {cols : List String} {r : List Val}
    (hr : r.length = cols.length) {n m : String} (hmn : m ≠ n) (v : Val) :
    getAt (colsWrite cols n) (rowWrite cols r n v) m = getAt cols r m := by
  unfold getAt rowWrite colsWrite
  by_cases hn : n ∈ cols
  · rw [if_pos hn, if_pos hn]
    by_cases hm : m ∈ cols
    · have hlt : idxOf cols m < r.length := hr ▸ idxOf_lt_length hm
      rw [List.getD_eq_getElem _ _ (by simpa using hlt),
        List.getD_eq_getElem _ _ hlt,
        List.getElem_set_ne (idxOf_ne (fun e => hmn e.symm) hn hm)]
    · have he : idxOf cols m = cols.length := idxOf_eq_length hm
      rw [he, List.getD_eq_default _ _ (by simp [hr]), List.getD_eq_default _ _ (by simp [hr])]
  · rw [if_neg hn, if_neg hn]
    by_cases hm : m ∈ cols
    · have hlt : idxOf cols m < r.length := hr ▸ idxOf_lt_length hm
      rw [idxOf_append_left hm, List.getD_append _ _ _ _ hlt]
    · have hm2 : m ∉ cols ++ [n] := by
        simp only [List.mem_append, List.mem_singleton]
        rintro (h1 | h2)
        · exact hm h1
        · exact hmn h2
      rw [idxOf_eq_length hm2, idxOf_eq_length hm,
        List.getD_eq_default _ _ (by simp [hr]), List.getD_eq_default _ _ (by simp [hr])]

theorem cols_setCol (df : Rel) (n : String) (vs : List Val) :
    (setCol df n vs).cols = colsWrite df.cols n := rfl

theorem rows_length_setCol {df : Rel} {vs : List Val}
    (hv : vs.length = df.rows.length) (n : String) :
    (setCol df n vs).rows.length = df.rows.length := by
  simp [setCol, hv]

theorem WF_setCol {df : Rel} (hWF : WF df) (vs : List Val) (n : String) :
    WF (setCol df n vs) := by
  intro r hrm
  simp only [setCol, List.mem_map] at hrm
  obtain ⟨p, hp, he⟩ := hrm
  have hp1 : p.1 ∈ df.rows := (List.of_mem_zip hp).1
  rw [cols_setCol, ← he]
  exact length_rowWrite (hWF p.1 hp1) n p.2

theorem colVals_length (df : Rel) (c : String) : (colVals df c).length = df.rows.length := by
  simp [colVals]

theorem colVals_getElem (df : Rel) (c : String) {i : Nat} (hi : i < df.rows.length) :
    (colVals df c).getD i Val.vNull = getAt df.cols (df.rows[i]) c := by
  rw [List.getD_eq_getElem _ _ (by simpa [colVals] using hi)]
  exact List.getElem_map _

theorem colVals_setCol_same {df : Rel} (hWF : WF df) {vs : List Val}
    (hv : vs.length = df.rows.length) (n : String) :
    colVals (setCol df n vs) n = vs := by
  apply List.ext_getElem
  · simp [colVals, setCol, hv]
  · intro i h1 h2
    have hi : i < (df.rows.zip vs).length := by
      simpa [colVals, setCol] using h1
    have hiR : i < df.rows.length := by simp [List.length_zip, hv] at hi; omega
    simp only [colVals, setCol, List.getElem_map, List.getElem_zip]
    exact getAt_rowWrite_same (hWF _ (List.getElem_mem hiR)) n _

theorem colVals_setCol_other {df : Rel} (hWF : WF df) {vs : List Val}
    (hv : vs.length = df.rows.length) {n m : String} (hmn : m ≠ n) :
    colVals (setCol df n vs) m = colVals df m := by
  apply List.ext_getElem
  · simp [colVals, setCol, hv]
  · intro i h1 h2
    have hiR : i < df.rows.length := by simpa [colVals] using h2
    simp only [colVals, setCol, List.getElem_map, List.getElem_zip]
    exact getAt_rowWrite_other (hWF _ (List.getElem_mem hiR)) hmn _

theorem setCol_self {df : Rel} (hWF : WF df) {n : String} (hn : n ∈ df.cols)
    {vs : List Val} (hvs : colVals df n = vs) : setCol df n vs = df := by
  have hv : vs.length = df.rows.length := by rw [← hvs]; exact colVals_length df n
  obtain ⟨cols, rows⟩ := df
  simp only [setCol, colsWrite, if_pos hn, Rel.mk.injEq, true_and]
  apply List.ext_getElem
  · simp [hv]
  · intro i h1 h2
    have hiR : i < rows.length := h2
    simp only [List.getElem_map, List.getElem_zip, rowWrite, if_pos hn]
    have hrl : rows[i].length = cols.length := hWF _ (List.getElem_mem hiR)
    have hlt : idxOf cols n < rows[i].length := hrl ▸ idxOf_lt_length hn
    apply List.ext_getElem
    · simp
    · intro j hj1 hj2
      by_cases hji : j = idxOf cols n
      · subst hji
        rw [List.getElem_set_self]
        have h0 : (colVals ⟨cols, rows⟩ n).getD i Val.vNull = vs.getD i Val.vNull := by
          rw [hvs]
        rw [colVals_getElem _ _ hiR,
          List.getD_eq_getElem _ _ (by rw [hv]; exact hiR)] at h0
        unfold getAt at h0
        rw [List.getD_eq_getElem _ _ hlt] at h0
        exact h0.symm
      · exact List.getElem_set_ne (fun e => hji e.symm) _

theorem getCell_eq_colVals (df : Rel) (c : String) {i : Nat} (hi : i < df.rows.length) :
    getCell df c i = (colVals df c).getD i Val.vNull := by
  rw [colVals_getElem df c hi]
  unfold getCell
  rw [List.getD_eq_getElem _ _ hi]

theorem getD_map_lt (f : Val → Val) {l : List Val} {i : Nat} (hi : i < l.length)
    (d d2 : Val) : (l.map f).getD i d = f (l.getD i d2) := by
  rw [List.getD_eq_getElem _ _ (by simpa using hi), List.getD_eq_getElem _ _ hi]
  exact List.getElem_map _

theorem Rel.ext_colVals {df1 df2 : Rel} (hc : df1.cols = df2.cols)
    (h1 : WF df1) (h2 : WF df2) (hnd : df1.cols.Nodup)
    (hlen : df1.rows.length = df2.rows.length)
    (hv : ∀ n ∈ df1.cols, colVals df1 n = colVals df2 n) : df1 = df2 := by
  obtain ⟨cols, rows1⟩ := df1
  obtain ⟨cols2, rows2⟩ := df2
  obtain rfl : cols = cols2 := hc
  simp only [Rel.mk.injEq, true_and]
  apply List.ext_getElem hlen
  intro i hi1 hi2
  apply List.ext_getElem
  · rw [h1 _ (List.getElem_mem hi1), h2 _ (List.getElem_mem hi2)]
  · intro j hj1 hj2
    have hjc : j < cols.length := by
      have := h1 _ (List.getElem_mem hi1); simpa [this] using hj1
    have hn := hv (cols[j]) (List.getElem_mem hjc)
    have h0 : (colVals ⟨cols, rows1⟩ (cols[j])).getD i Val.vNull
        = (colVals ⟨cols, rows2⟩ (cols[j])).getD i Val.vNull := by rw [hn]
    rw [colVals_getElem _ _ hi1, colVals_getElem _ _ hi2] at h0
    unfold getAt at h0
    rw [idxOf_getElem hnd hjc, List.getD_eq_getElem _ _ hj1,
      List.getD_eq_getElem _ _ hj2] at h0
    exact h0

/-! ## Supporting lemmas: partition-column derivation -/

theorem dtPart_eq_partNum {k : String} (hk : k = "year" ∨ k = "month" ∨ k = "day")
    {v : Val} (hv : v.isDate = true) : dtPart k v = some (partNum k v) := by
  cases v <;> simp [Val.isDate] at hv
  rcases hk with h | h | h <;> simp [dtPart, partNum, h]

theorem mapM_dtPart {k : String} (hk : k = "year" ∨ k = "month" ∨ k = "day") :
    ∀ {l : List Val}, l.all Val.isDate = true → l.mapM (dtPart k) = some (l.map (partNum k))
  | [], _ => rfl
  | v :: t, h => by
    rw [List.all_cons, Bool.and_eq_true] at h
    rw [List.mapM_cons, dtPart_eq_partNum hk h.1, mapM_dtPart hk h.2]
    rfl

theorem dtCol_ok {df : Rel} {col : String} {k : String}
    (hk : k = "year" ∨ k = "month" ∨ k = "day") (hmem : col ∈ df.cols)
    (hdates : (colVals df col).all Val.isDate = true) :
    dtCol df col k = .ok ((colVals df col).map (partNum k)) := by
  unfold dtCol
  rw [if_pos hmem, mapM_dtPart hk hdates]

theorem ldpcStep_ok {df : Rel} {col : String} (kv : String × String)
    (hk : kv.1 = "year" ∨ kv.1 = "month" ∨ kv.1 = "day") (hmem : col ∈ df.cols)
    (hdates : (colVals df col).all Val.isDate = true) :
    ldpcStep df col kv = .ok (setCol df kv.2 ((colVals df col).map (partNum kv.1))) := by
  unfold ldpcStep
  rcases hk with h | h | h
  · rw [if_pos h, h, dtCol_ok (Or.inl rfl) hmem hdates]; rfl
  · rw [if_neg (by rw [h]; decide), if_pos h, h,
      dtCol_ok (Or.inr (Or.inl rfl)) hmem hdates]
    rfl
  · rw [if_neg (by rw [h]; decide), if_neg (by rw [h]; decide), if_pos h, h,
      dtCol_ok (Or.inr (Or.inr rfl)) hmem hdates]
    rfl

theorem ldpcStep_invalid (df : Rel) (col : String) {kv : String × String}
    (hk : ¬ (kv.1 = "year" ∨ kv.1 = "month" ∨ kv.1 = "day")) :
    ldpcStep df col kv = .error .partitionKeyError := by
  push_neg at hk
  simp [ldpcStep, hk.1, hk.2.1, hk.2.2]

theorem applyWrites_nil (df : Rel) : applyWrites df [] = df := rfl

theorem applyWrites_cons (df : Rel) (w : String × List Val) (ws : List (String × List Val)) :
    applyWrites df (w :: ws) = applyWrites (setCol df w.1 w.2) ws := rfl

theorem WF_applyWrites {ws : List (String × List Val)} :
    ∀ {df : Rel}, WF df → WF (applyWrites df ws) := by
  induction ws with
  | nil => intro df h; exact h
  | cons w ws ih => intro df h; exact ih (WF_setCol h w.2 w.1)

theorem rows_length_applyWrites {ws : List (String × List Val)} :
    ∀ {df : Rel}, (∀ w ∈ ws, w.2.length = df.rows.length) →
    (applyWrites df ws).rows.length = df.rows.length := by
  induction ws with
  | nil => intro df _; rfl
  | cons w ws ih =>
    intro df h
    have h0 : w.2.length = df.rows.length := h w (List.mem_cons_self w ws)
    have h1 := rows_length_setCol h0 w.1
    rw [applyWrites_cons, ih (fun v hv => by rw [h1]; exact h v (List.mem_cons_of_mem w hv)), h1]

theorem mem_cols_applyWrites {ws : List (String × List Val)} :
    ∀ {df : Rel} {m : String}, m ∈ df.cols → m ∈ (applyWrites df ws).cols := by
  induction ws with
  | nil => intro df m h; exact h
  | cons w ws ih => intro df m h; exact ih (mem_colsWrite_of_mem h)

theorem names_mem_cols_applyWrites {ws : List (String × List Val)} :
    ∀ {df : Rel}, ∀ w ∈ ws, w.1 ∈ (applyWrites df ws).cols := by
  induction ws with
  | nil => intro df w h; cases h
  | cons w0 ws ih =>
    intro df w hw
    rcases List.mem_cons.mp hw with h | h
    · subst h
      rw [applyWrites_cons]
      exact mem_cols_applyWrites
        (show w.1 ∈ (setCol df w.1 w.2).cols from mem_colsWrite_self df.cols w.1)
    · exact ih w h

theorem nodup_cols_applyWrites {ws : List (String × List Val)} :
    ∀ {df : Rel}, df.cols.Nodup → (applyWrites df ws).cols.Nodup := by
  induction ws with
  | nil => intro df h; exact h
  | cons w ws ih => intro df h; exact ih (nodup_colsWrite h w.1)

theorem colVals_applyWrites_other {ws : List (String × List Val)} :
    ∀ {df : Rel} {n : String}, WF df → (∀ w ∈ ws, w.2.length = df.rows.length) →
    (∀ w ∈ ws, w.1 ≠ n) →
    colVals (applyWrites df ws) n = colVals df n := by
  induction ws with
  | nil => intro df n _ _ _; rfl
  | cons w ws ih =>
    intro df n hWF hlen hne
    have h0 : w.2.length = df.rows.length := hlen w (List.mem_cons_self w ws)
    have h1 := rows_length_setCol h0 w.1
    rw [applyWrites_cons,
      ih (WF_setCol hWF w.2 w.1)
        (fun v hv => by rw [h1]; exact hlen v (List.mem_cons_of_mem w hv))
        (fun v hv => hne v (List.mem_cons_of_mem w hv)),
      colVals_setCol_other hWF h0 (fun e => (hne w (List.mem_cons_self w ws)) e.symm)]

theorem lastValW_cons_of_ne {w : String × List Val} {ws : List (String × List Val)}
    {n : String} (h : w.1 ≠ n) : lastValW (w :: ws) n = lastValW ws n := by
  simp [lastValW, List.filter_cons, h]

theorem getLastD_irrel {α : Type} : ∀ {l : List α}, l ≠ [] → ∀ d1 d2 : α,
    l.getLastD d1 = l.getLastD d2
  | [], h, _, _ => absurd rfl h
  | [_], _, _, _ => rfl
  | _ :: _ :: _, _, _, _ => rfl

theorem filter_names_ne_nil {ws : List (String × List Val)} {n : String}
    (h : n ∈ ws.map Prod.fst) : ws.filter (fun w => w.1 = n) ≠ [] := by
  obtain ⟨w, hw, he⟩ := List.mem_map.mp h
  intro hnil
  have : w ∈ ws.filter (fun w => w.1 = n) := List.mem_filter.mpr ⟨hw, by simp [he]⟩
  rw [hnil] at this
  cases this

theorem lastValW_cons_of_mem {w : String × List Val} {ws : List (String × List Val)}
    {n : String} (h : n ∈ ws.map Prod.fst) : lastValW (w :: ws) n = lastValW ws n := by
  by_cases hw : w.1 = n
  · have hne := filter_names_ne_nil h
    unfold lastValW
    rw [List.filter_cons, if_pos (by simp [hw]), List.map_cons, List.getLastD_cons]
    exact getLastD_irrel (by simpa using hne) _ _
  · exact lastValW_cons_of_ne hw

theorem lastValW_cons_self {w : String × List Val} {ws : List (String × List Val)}
    (hw : w.1 ∈ ws.map Prod.fst → False) : lastValW (w :: ws) w.1 = w.2 := by
  have hnil : ws.filter (fun v => v.1 = w.1) = [] := by
    rw [List.filter_eq_nil_iff]
    intro v hv
    simp only [decide_eq_true_eq]
    intro he
    exact hw (List.mem_map.mpr ⟨v, hv, he⟩)
  simp [lastValW, List.filter_cons, hnil]

theorem applyWrites_congr {ws : List (String × List Val)} :
    ∀ {df1 df2 : Rel}, df1.cols = df2.cols → WF df1 → WF df2 → df1.cols.Nodup →
    df1.rows.length = df2.rows.length →
    (∀ w ∈ ws, w.2.length = df1.rows.length) →
    (∀ n, n ∉ ws.map Prod.fst → colVals df1 n = colVals df2 n) →
    applyWrites df1 ws = applyWrites df2 ws := by
  induction ws with
  | nil =>
    intro df1 df2 hc h1 h2 hnd hlen _ hv
    exact Rel.ext_colVals hc h1 h2 hnd hlen (fun n _ => hv n (by simp))
  | cons w ws ih =>
    intro df1 df2 hc h1 h2 hnd hlen hws hv
    have hw1 : w.2.length = df1.rows.length := hws w (List.mem_cons_self w ws)
    have hw2 : w.2.length = df2.rows.length := by rw [hw1, hlen]
    rw [applyWrites_cons, applyWrites_cons]
    apply ih
    · rw [cols_setCol, cols_setCol, hc]
    · exact WF_setCol h1 w.2 w.1
    · exact WF_setCol h2 w.2 w.1
    · rw [cols_setCol]; exact nodup_colsWrite hnd w.1
    · rw [rows_length_setCol hw1, rows_length_setCol hw2, hlen]
    · intro v hvm
      rw [rows_length_setCol hw1]
      exact hws v (List.mem_cons_of_mem w hvm)
    · intro n hn
      by_cases he : n = w.1
      · subst he
        rw [colVals_setCol_same h1 hw1, colVals_setCol_same h2 hw2]
      · rw [colVals_setCol_other h1 hw1 he, colVals_setCol_other h2 hw2 he]
        refine hv n (fun hmm => ?_)
        rw [List.map_cons] at hmm
        rcases List.mem_cons.mp hmm with h1e | h2e
        · exact he h1e
        · exact hn h2e

theorem applyWrites_absorb {ws : List (String × List Val)} :
    ∀ {t : Rel}, WF t → t.cols.Nodup →
    (∀ w ∈ ws, w.1 ∈ t.cols ∧ w.2.length = t.rows.length) →
    (∀ n, n ∈ ws.map Prod.fst → colVals t n = lastValW ws n) →
    applyWrites t ws = t := by
  induction ws with
  | nil => intro t _ _ _ _; rfl
  | cons w ws ih =>
    intro t hWF hnd hws hlast
    have hwmem : w.1 ∈ t.cols := (hws w (List.mem_cons_self w ws)).1
    have hwlen : w.2.length = t.rows.length := (hws w (List.mem_cons_self w ws)).2
    rw [applyWrites_cons]
    by_cases hmem : w.1 ∈ ws.map Prod.fst
    · have hcols : (setCol t w.1 w.2).cols = t.cols := by
        rw [cols_setCol]; unfold colsWrite; rw [if_pos hwmem]
      have hstep : applyWrites (setCol t w.1 w.2) ws = applyWrites t ws := by
        apply applyWrites_congr hcols (WF_setCol hWF w.2 w.1) hWF (hcols ▸ hnd)
          (rows_length_setCol hwlen w.1)
        · intro v hv
          rw [rows_length_setCol hwlen]
          exact (hws v (List.mem_cons_of_mem w hv)).2
        · intro n hn
          exact colVals_setCol_other hWF hwlen (fun e => hn (e ▸ hmem))
      rw [hstep]
      apply ih hWF hnd (fun v hv => hws v (List.mem_cons_of_mem w hv))
      intro n hn
      rw [hlast n (by simpa using Or.inr hn), lastValW_cons_of_mem hn]
    · have hself : setCol t w.1 w.2 = t := by
        apply setCol_self hWF hwmem
        rw [hlast w.1 (by simp), lastValW_cons_self hmem]
      rw [hself]
      apply ih hWF hnd (fun v hv => hws v (List.mem_cons_of_mem w hv))
      intro n hn
      have hne : w.1 ≠ n := fun e => hmem (e ▸ hn)
      rw [hlast n (by simpa using Or.inr hn), lastValW_cons_of_ne hne]

theorem colVals_applyWrites_last {ws : List (String × List Val)} :
    ∀ {df : Rel}, WF df → (∀ w ∈ ws, w.2.length = df.rows.length) →
    ∀ n, n ∈ ws.map Prod.fst → colVals (applyWrites df ws) n = lastValW ws n := by
  induction ws with
  | nil => intro df _ _ n h; cases h
  | cons w ws ih =>
    intro df hWF hws n hn
    have hwlen : w.2.length = df.rows.length := hws w (List.mem_cons_self w ws)
    have hlen2 : ∀ v ∈ ws, v.2.length = (setCol df w.1 w.2).rows.length := by
      intro v hv
      rw [rows_length_setCol hwlen]
      exact hws v (List.mem_cons_of_mem w hv)
    rw [applyWrites_cons]
    by_cases hm : n ∈ ws.map Prod.fst
    · rw [ih (WF_setCol hWF w.2 w.1) hlen2 n hm, lastValW_cons_of_mem hm]
    · have he : n = w.1 := by
        rcases List.mem_map.mp hn with ⟨v, hv, hveq⟩
        rcases List.mem_cons.mp hv with h | h
        · rw [← hveq, h]
        · exact absurd (List.mem_map.mpr ⟨v, h, hveq⟩) hm
      subst he
      rw [colVals_applyWrites_other (WF_setCol hWF w.2 w.1) hlen2
          (fun v hv e => hm (by rw [← e]; exact List.mem_map.mpr ⟨v, hv, rfl⟩)),
        colVals_setCol_same hWF hwlen, lastValW_cons_self hm]

theorem applyWrites_twice {df : Rel} {ws : List (String × List Val)} (hWF : WF df)
    (hnd : df.cols.Nodup) (hws : ∀ w ∈ ws, w.2.length = df.rows.length) :
    applyWrites (applyWrites df ws) ws = applyWrites df ws := by
  apply applyWrites_absorb (WF_applyWrites hWF) (nodup_cols_applyWrites hnd)
  · intro w hw
    refine ⟨names_mem_cols_applyWrites w hw, ?_⟩
    rw [rows_length_applyWrites hws]
    exact hws w hw
  · exact colVals_applyWrites_last hWF hws

theorem ldpc_eq_applyWrites {cfg : List (String × String)} :
    ∀ {df : Rel} {col : String}, WF df → col ∈ df.cols →
    (colVals df col).all Val.isDate = true →
    (∀ kv ∈ cfg, kv.2 ≠ col) →
    (∀ kv ∈ cfg, kv.1 = "year" ∨ kv.1 = "month" ∨ kv.1 = "day") →
    load_date_partition_cols df col cfg
      = (applyWrites df (partWrites (colVals df col) cfg), none) := by
  induction cfg with
  | nil => intro df col _ _ _ _ _; rfl
  | cons kv rest ih =>
    intro df col hWF hmem hdates hdest hkeys
    have hk := hkeys kv (List.mem_cons_self kv rest)
    have hd := hdest kv (List.mem_cons_self kv rest)
    have hstep := ldpcStep_ok kv hk hmem hdates
    have hvlen : ((colVals df col).map (partNum kv.1)).length = df.rows.length := by
      rw [List.length_map, colVals_length]
    have hcv : colVals (setCol df kv.2 ((colVals df col).map (partNum kv.1))) col
        = colVals df col := colVals_setCol_other hWF hvlen (fun e => hd e.symm)
    have hred : load_date_partition_cols df col (kv :: rest)
        = load_date_partition_cols
            (setCol df kv.2 ((colVals df col).map (partNum kv.1))) col rest := by
      show (match ldpcStep df col kv with
        | .ok df2 => load_date_partition_cols df2 col rest
        | .error e => (df, some e)) = _
      rw [hstep]
    rw [hred,
      ih (WF_setCol hWF _ _) (mem_colsWrite_of_mem hmem) (by rw [hcv]; exact hdates)
        (fun v hv => hdest v (List.mem_cons_of_mem kv hv))
        (fun v hv => hkeys v (List.mem_cons_of_mem kv hv)),
      hcv]
    rfl

/-! ## Supporting lemmas: the sort orders -/

theorem charEq_of_le_le {a b : Char} (h1 : a.val.toNat ≤ b.val.toNat)
    (h2 : b.val.toNat ≤ a.val.toNat) : a = b :=
  Char.ext (UInt32.toNat.inj (Nat.le_antisymm h1 h2))

theorem charListLe_total : ∀ (a b : List Char), charListLe a b = true ∨ charListLe b a = true
  | [], _ => Or.inl rfl
  | _ :: _, [] => Or.inr rfl
  | a :: as_, b :: bs => by
    by_cases hab : a = b
    · subst hab
      simp only [charListLe, if_pos rfl]
      exact charListLe_total as_ bs
    · have hba : b ≠ a := fun e => hab e.symm
      simp only [charListLe, if_neg hab, if_neg hba, decide_eq_true_eq]
      exact Nat.le_total _ _

theorem charListLe_trans : ∀ (a b c : List Char), charListLe a b = true →
    charListLe b c = true → charListLe a c = true
  | [], _, _, _, _ => rfl
  | _ :: _, [], _, h1, _ => by simp [charListLe] at h1
  | _ :: _, _ :: _, [], _, h2 => by simp [charListLe] at h2
  | a :: as_, b :: bs, c :: cs, h1, h2 => by
    by_cases hab : a = b
    · subst hab
      simp only [charListLe, if_pos rfl] at h1
      by_cases hac : a = c
      · subst hac
        simp only [charListLe, if_pos rfl] at h2 ⊢
        exact charListLe_trans as_ bs cs h1 h2
      · simpa only [charListLe, if_neg hac] using h2
    · simp only [charListLe, if_neg hab, decide_eq_true_eq] at h1
      by_cases hbc : b = c
      · subst hbc
        simpa only [charListLe, if_neg hab, decide_eq_true_eq] using h1
      · simp only [charListLe, if_neg hbc, decide_eq_true_eq] at h2
        by_cases hac : a = c
        · exact absurd (charEq_of_le_le h1 (hac ▸ h2)) hab
        · simp only [charListLe, if_neg hac, decide_eq_true_eq]
          omega

theorem charListLe_antisymm : ∀ (a b : List Char), charListLe a b = true →
    charListLe b a = true → a = b
  | [], [], _, _ => rfl
  | [], _ :: _, _, h2 => by simp [charListLe] at h2
  | _ :: _, [], h1, _ => by simp [charListLe] at h1
  | a :: as_, b :: bs, h1, h2 => by
    by_cases hab : a = b
    · subst hab
      simp only [charListLe, if_pos rfl] at h1 h2
      rw [charListLe_antisymm as_ bs h1 h2]
    · have hba : b ≠ a := fun e => hab e.symm
      simp only [charListLe, if_neg hab, if_neg hba, decide_eq_true_eq] at h1 h2
      exact absurd (charEq_of_le_le h1 h2) hab

theorem strLe_total (a b : String) : strLe a b = true ∨ strLe b a = true :=
  charListLe_total a.data b.data

theorem strLe_trans {a b c : String} (h1 : strLe a b = true) (h2 : strLe b c = true) :
    strLe a c = true :=
  charListLe_trans a.data b.data c.data h1 h2

theorem strLe_antisymm {a b : String} (h1 : strLe a b = true) (h2 : strLe b a = true) :
    a = b := by
  obtain ⟨ad⟩ := a
  obtain ⟨bd⟩ := b
  exact congrArg String.mk (charListLe_antisymm ad bd h1 h2)

instance : IsTotal String strLeP := ⟨strLe_total⟩

instance : IsTrans String strLeP := ⟨fun _ _ _ => strLe_trans⟩

theorem valLe_total (a b : Val) : valLe a b = true ∨ valLe b a = true := by
  cases a <;> cases b <;> simp only [valLe, decide_eq_true_eq, Val.rank] <;>
    first
      | exact Int.le_total _ _
      | exact le_total _ _
      | exact strLe_total _ _
      | omega

theorem valLe_trans {a b c : Val} (h1 : valLe a b = true) (h2 : valLe b c = true) :
    valLe a c = true := by
  cases a <;> cases b <;> cases c <;>
    simp only [valLe, decide_eq_true_eq, Val.rank] at h1 h2 ⊢ <;>
    first
      | omega
      | exact le_trans h1 h2
      | exact strLe_trans h1 h2

theorem valLe_antisymm {a b : Val} (h1 : valLe a b = true) (h2 : valLe b a = true) :
    a = b := by
  cases a <;> cases b <;>
    simp only [valLe, decide_eq_true_eq, Val.rank, Val.vInt.injEq, Val.vStr.injEq,
      Val.vRat.injEq, Val.vDate.injEq] at h1 h2 ⊢ <;>
    first
      | rfl
      | omega
      | exact le_antisymm h1 h2
      | exact strLe_antisymm h1 h2

theorem keyLe_total : ∀ (a b : List Val), keyLe a b = true ∨ keyLe b a = true
  | [], _ => Or.inl rfl
  | _ :: _, [] => Or.inr rfl
  | a :: as_, b :: bs => by
    by_cases hab : a = b
    · subst hab
      simp only [keyLe, if_pos rfl]
      exact keyLe_total as_ bs
    · have hba : b ≠ a := fun e => hab e.symm
      simp only [keyLe, if_neg hab, if_neg hba]
      exact valLe_total a b

theorem keyLe_trans : ∀ (a b c : List Val), keyLe a b = true →
    keyLe b c = true → keyLe a c = true
  | [], _, _, _, _ => rfl
  | _ :: _, [], _, h1, _ => by simp [keyLe] at h1
  | _ :: _, _ :: _, [], _, h2 => by simp [keyLe] at h2
  | a :: as_, b :: bs, c :: cs, h1, h2 => by
    by_cases hab : a = b
    · subst hab
      simp only [keyLe, if_pos rfl] at h1
      by_cases hac : a = c
      · subst hac
        simp only [keyLe, if_pos rfl] at h2 ⊢
        exact keyLe_trans as_ bs cs h1 h2
      · simpa only [keyLe, if_neg hac] using h2
    · simp only [keyLe, if_neg hab] at h1
      by_cases hbc : b = c
      · subst hbc
        simpa only [keyLe, if_neg hab] using h1
      · simp only [keyLe, if_neg hbc] at h2
        by_cases hac : a = c
        · exact absurd (valLe_antisymm h1 (hac ▸ h2)) hab
        · simpa only [keyLe, if_neg hac] using valLe_trans h1 h2

instance : IsTotal (List Val) keyLeP := ⟨keyLe_total⟩

instance : IsTrans (List Val) keyLeP := ⟨fun a b c => keyLe_trans a b c⟩

/-! ## Supporting lemmas: join -/

theorem mergeOnKeys_ne_invalid (df1 df2 : Rel) (ks : List String) (how : String)
    (suf : String × String) :
    mergeOnKeys df1 df2 ks how suf ≠ .error .invalidJoinSpec := by
  unfold mergeOnKeys
  split
  · simp
  · split
    · simp
    · simp

theorem mergePairKeys_ne_invalid (df1 df2 : Rel) (lk rk : List String) (how : String)
    (suf : String × String) :
    mergePairKeys df1 df2 lk rk how suf ≠ .error .invalidJoinSpec := by
  unfold mergePairKeys
  split
  · simp
  · split
    · simp
    · split
      · simp
      · simp

theorem pdMerge_ne_invalid (df1 df2 : Rel) (lo ro onk : Option (List String))
    (how : String) (suf : String × String) :
    pdMerge df1 df2 lo ro onk how suf ≠ .error .invalidJoinSpec := by
  unfold pdMerge
  split
  · exact mergeOnKeys_ne_invalid _ _ _ _ _
  · split
    · split
      · simp
      · exact mergeOnKeys_ne_invalid _ _ _ _ _
    · exact mergePairKeys_ne_invalid _ _ _ _ _ _
    · simp

theorem join_ok_drop_y {df1 df2 : Rel} {lo ro onk : Option (List String)}
    {how : String} {suf : String × String} {out : Rel}
    (h : join df1 df2 lo ro onk how suf = .ok out) : ∃ m : Rel, out = drop_y m := by
  unfold join at h
  split at h
  · exact ⟨_, (Except.ok.inj h).symm⟩
  · cases h

theorem cols_mergeOnKeys {df1 df2 : Rel} {ks : List String} {how : String}
    {suf : String × String} {m : Rel} (h : mergeOnKeys df1 df2 ks how suf = .ok m) :
    m.cols = df1.cols.map (leftName df2.cols ks suf.1)
      ++ (df2.cols.filter (fun c => c ∉ ks)).map (rightName df1.cols ks suf.2) := by
  unfold mergeOnKeys at h
  split at h
  · cases h
  · split at h
    · cases h
    · rw [← Except.ok.inj h]

theorem rows_mergeOnKeys_inner {df1 df2 : Rel} {ks : List String}
    {suf : String × String} {m : Rel} (h : mergeOnKeys df1 df2 ks "inner" suf = .ok m) :
    ∀ r ∈ m.rows, ∃ lr ∈ df1.rows, ∃ rr ∈ df2.rows,
      r = lr ++ rightRest df2.cols ks rr
      ∧ ∀ k ∈ ks, getAt df1.cols lr k = getAt df2.cols rr k := by
  unfold mergeOnKeys at h
  split at h
  · cases h
  · split at h
    · cases h
    · rw [← Except.ok.inj h]
      intro r hr
      replace hr : r ∈ df1.rows.flatMap (fun lr =>
          (df2.rows.filter (fun rr =>
              decide (∀ k ∈ ks, getAt df1.cols lr k = getAt df2.cols rr k))).map
            (fun rr => lr ++ rightRest df2.cols ks rr)) := hr
      rw [List.mem_flatMap] at hr
      obtain ⟨lr, hlr, hbody⟩ := hr
      rw [List.mem_map] at hbody
      obtain ⟨rr, hrr, hre⟩ := hbody
      rw [List.mem_filter, decide_eq_true_eq] at hrr
      exact ⟨lr, hlr, rr, hrr.1, hre.symm, hrr.2⟩

theorem cols_drop_y (df : Rel) :
    (drop_y df).cols = df.cols.filter (fun c => ¬ strEndsWith c "_y") := rfl

theorem mem_cols_drop_y {df : Rel} {c : String} (h : c ∈ (drop_y df).cols) :
    strEndsWith c "_y" = false := by
  rw [cols_drop_y, List.mem_filter] at h
  simpa using h.2

/-! ## Supporting lemmas: aggregation -/

theorem pdGroupAgg_ok_shape {df : Rel} {gcols tcols : List String} {agg : String}
    {out : Rel} (h : pdGroupAgg df gcols tcols agg = .ok out) :
    out.cols = gcols ++ tcols
    ∧ out.rows = (List.insertionSort keyLeP ((df.rows.map (keyOf df.cols gcols)).dedup)).map
        (fun k => k ++ tcols.map (fun c =>
          aggRed agg ((df.rows.filter (fun r => keyOf df.cols gcols r = k)).map
            (fun r => getAt df.cols r c)))) := by
  unfold pdGroupAgg at h
  split at h
  · cases h
  · split at h
    · cases h
    · rw [← Except.ok.inj h]
      exact ⟨rfl, rfl⟩

theorem length_keyOf (cols gcols : List String) (r : List Val) :
    (keyOf cols gcols r).length = gcols.length := by
  simp [keyOf]

/-! ## Supporting lemmas: the reference store -/

theorem readRef_append {s : Store} {df : Rel} {i : Nat} (hi : i < List.length s) :
    readRef (s ++ [df]) i = readRef s i := by
  unfold readRef
  exact List.getD_append _ _ _ _ hi

theorem preservesStore_refl (s : Store) : preservesStore s s := fun _ _ => rfl

theorem preservesStore_alloc (s : Store) (df : Rel) : preservesStore s (allocRef s df).1 :=
  fun _ hi => readRef_append hi

theorem preservesStore_alloc_write (s : Store) (m m2 : Rel) :
    preservesStore s (writeRef (allocRef s m).1 (allocRef s m).2 m2) := by
  intro i hi
  unfold readRef writeRef allocRef
  rw [List.getD_eq_getElem _ _ (by simp; omega), List.getD_eq_getElem _ _ hi,
    List.getElem_set_ne (by omega)]
  exact List.getElem_append_left hi

/-! ## Claim C1 -/

/-- Claim C1: joining two relations that both have columns id and v on key id
with the default suffix pair yields a result with columns id, v (exactly one
column named v), and every matched output row is the matching left row itself,
so the surviving v value is the left relation's v value; the right-hand
colliding column is dropped. -/
theorem join_suffix_tiebreak (lrows rrows : List (List Val)) (out : Rel)
    (hl : ∀ r ∈ lrows, r.length = 2)
    (h : join ⟨["id", "v"], lrows⟩ ⟨["id", "v"], rrows⟩ none none (some ["id"])
      "inner" ("", "_y") = .ok out) :
    out.cols = ["id", "v"] ∧ out.cols.count "v" = 1 ∧ ∀ row ∈ out.rows, row ∈ lrows := by
  have hJ : join ⟨["id", "v"], lrows⟩ ⟨["id", "v"], rrows⟩ none none (some ["id"])
      "inner" ("", "_y")
      = (match mergeOnKeys ⟨["id", "v"], lrows⟩ ⟨["id", "v"], rrows⟩ ["id"]
          "inner" ("", "_y") with
        | Except.ok df => Except.ok (drop_y df)
        | Except.error e => Except.error e) := rfl
  rw [hJ] at h
  cases hmk : mergeOnKeys ⟨["id", "v"], lrows⟩ ⟨["id", "v"], rrows⟩ ["id"]
      "inner" ("", "_y") with
  | error e => rw [hmk] at h; cases h
  | ok m =>
    rw [hmk] at h
    have hout : out = drop_y m := (Except.ok.inj h).symm
    have hcols : m.cols = ["id", "v", "v_y"] := by rw [cols_mergeOnKeys hmk]; rfl
    subst hout
    refine ⟨by rw [cols_drop_y, hcols]; rfl, by rw [cols_drop_y, hcols]; rfl, ?_⟩
    intro row hrow
    replace hrow : row ∈ m.rows.map (fun r => (m.cols.zip r).filterMap
        (fun p => if strEndsWith p.1 "_y" then none else some p.2)) := hrow
    obtain ⟨mr, hmr, hfe⟩ := List.mem_map.mp hrow
    obtain ⟨lr, hlr, rr, _, hmreq, _⟩ := rows_mergeOnKeys_inner hmk mr hmr
    obtain ⟨a, b, rfl⟩ := List.length_eq_two.mp (hl lr hlr)
    have hcomp : ∀ (x y : Val) (rest : List Val),
        ((["id", "v", "v_y"].zip (([x, y] : List Val) ++ rest)).filterMap
          (fun p => if strEndsWith p.1 "_y" then none else some p.2)) = [x, y] := by
      intro x y rest
      cases rest <;> rfl
    rw [hcols, hmreq, hcomp] at hfe
    rw [← hfe]
    exact hlr

/-- Claim C1 witness at a one-row instance. -/
theorem join_suffix_tiebreak_witness :
    (Rel.mk ["id", "v"] [[.vInt 1, .vInt 10]]).cols = ["id", "v"] :=
  (join_suffix_tiebreak [[.vInt 1, .vInt 10]] [[.vInt 1, .vInt 20]]
    ⟨["id", "v"], [[.vInt 1, .vInt 10]]⟩ (by decide) (by decide)).1

/-! ## Claim C2 -/

/-- Claim C2: after the structural merge, join drops every column whose
resolved name ends with the literal two-character suffix underscore-y,
independent of the suffix argument and of collisions: every ok join result is
free of such names; with right suffix given as underscore-r the colliding
right-hand column v_r is kept; and a column foo_y present in the left input is
silently removed even though no collision produced it. -/
theorem join_drops_all_y_columns :
    (∀ (df1 df2 : Rel) (lo ro onk : Option (List String)) (how : String)
      (suf : String × String) (out : Rel), join df1 df2 lo ro onk how suf = .ok out →
      ∀ c ∈ out.cols, strEndsWith c "_y" = false)
  ∧ join ⟨["id", "v"], [[.vInt 1, .vInt 10]]⟩ ⟨["id", "v"], [[.vInt 1, .vInt 20]]⟩
      none none (some ["id"]) "inner" ("", "_r")
      = .ok ⟨["id", "v", "v_r"], [[.vInt 1, .vInt 10, .vInt 20]]⟩
  ∧ ("foo_y" ∈ (Rel.mk ["id", "foo_y"] [[.vInt 1, .vInt 5]]).cols
     ∧ join ⟨["id", "foo_y"], [[.vInt 1, .vInt 5]]⟩ ⟨["id", "w"], [[.vInt 1, .vInt 7]]⟩
        none none (some ["id"]) "inner" ("", "_y")
        = .ok ⟨["id", "w"], [[.vInt 1, .vInt 7]]⟩) := by
  refine ⟨?_, by decide, by decide, by decide⟩
  intro df1 df2 lo ro onk how suf out h c hc
  obtain ⟨m, rfl⟩ := join_ok_drop_y h
  exact mem_cols_drop_y hc

/-- Claim C2 witness: the universally quantified part applied at a concrete
join instance and column. -/
theorem join_drops_all_y_columns_witness : strEndsWith "id" "_y" = false :=
  join_drops_all_y_columns.1 ⟨["id", "v"], [[.vInt 1, .vInt 10]]⟩
    ⟨["id", "v"], [[.vInt 1, .vInt 20]]⟩ none none (some ["id"]) "inner" ("", "_y")
    ⟨["id", "v"], [[.vInt 1, .vInt 10]]⟩ (by decide) "id" (by decide)

/-! ## Claim C3 -/

/-- Claim C3 counterexample: with none of on, left_on, right_on supplied the
source's first branch runs a pandas common-column merge and returns a joined
relation instead of raising the invalid-join-spec error the claim asserts for
that case. -/
theorem join_no_keys_merges :
    join ⟨["k"], [[.vInt 1]]⟩ ⟨["k"], [[.vInt 1]]⟩ none none none "inner" ("", "_y")
      = .ok ⟨["k"], [[.vInt 1]]⟩ := by decide

/-- Claim C3 as amended: join raises the invalid-join-spec error exactly when
on and at least one of left_on/right_on are both supplied; when none is
supplied the call does not raise it (pandas merges on the common columns,
failing with its own merge error only when there are none). -/
theorem join_invalid_spec_iff (df1 df2 : Rel) (lo ro onk : Option (List String))
    (how : String) (suf : String × String) :
    join df1 df2 lo ro onk how suf = .error .invalidJoinSpec
      ↔ onk.isSome = true ∧ (lo.isSome = true ∨ ro.isSome = true) := by
  cases onk with
  | none =>
    apply iff_of_false
    · have hne := pdMerge_ne_invalid df1 df2 lo ro none how suf
      show (match pdMerge df1 df2 lo ro none how suf with
        | Except.ok df => Except.ok (drop_y df)
        | Except.error e => Except.error e) ≠ Except.error Err.invalidJoinSpec
      cases hp : pdMerge df1 df2 lo ro none how suf with
      | ok m => simp
      | error e => rw [hp] at hne; simpa using hne
    · simp
  | some ks =>
    cases lo with
    | none =>
      cases ro with
      | none =>
        apply iff_of_false
        · have hne := pdMerge_ne_invalid df1 df2 none none (some ks) how suf
          show (match pdMerge df1 df2 none none (some ks) how suf with
            | Except.ok df => Except.ok (drop_y df)
            | Except.error e => Except.error e) ≠ Except.error Err.invalidJoinSpec
          cases hp : pdMerge df1 df2 none none (some ks) how suf with
          | ok m => simp
          | error e => rw [hp] at hne; simpa using hne
        · simp
      | some rk => exact iff_of_true rfl ⟨rfl, Or.inr rfl⟩
    | some lk =>
      apply iff_of_true
      · cases ro <;> rfl
      · exact ⟨rfl, Or.inl rfl⟩

/-- Claim C3 witness: the both-supplied direction at a concrete call. -/
theorem join_invalid_spec_iff_witness :
    join ⟨["k"], [[.vInt 1]]⟩ ⟨["k"], [[.vInt 1]]⟩ (some ["k"]) none (some ["k"])
      "inner" ("", "_y") = .error .invalidJoinSpec :=
  (join_invalid_spec_iff _ _ _ _ _ _ _).mpr ⟨rfl, Or.inl rfl⟩

/-! ## Claim C4 -/

/-- Claim C4 (code bug): on paths spanning buckets b1 and b2 the source
accumulates a single batch whose bucket name is the last row's b2 while its
keys contain all three objects, including b1's, so the issued deletion batch
spans more than one bucket instead of being split per bucket. -/
theorem delete_batch_spans_buckets :
    delete_batch ["s3://b1/a", "s3://b1/b", "s3://b2/c"] = ("b2", ["a", "b", "c"])
    ∧ bucket_and_key_from_path "s3://b1/a" = ("b1", "a")
    ∧ (("b1" : String) = "b2") = False :=
  ⟨by decide, by decide, eq_false (by decide)⟩

/-! ## Claim C5 -/

/-- Claim C5: the sum aggregation of the three-row example relation returns
exactly the two expected rows in ascending key order; in general a sum
grouping has the group columns followed by the target columns as plain
columns, one output row per distinct group-key tuple, and the key tuples
appear in ascending order. -/
theorem groupby_sum_spec :
    groupby ⟨["g", "x"], [[.vStr "a", .vInt 1], [.vStr "a", .vInt 3], [.vStr "b", .vInt 5]]⟩
      ["g"] ["x"] "sum" = .ok ⟨["g", "x"], [[.vStr "a", .vInt 4], [.vStr "b", .vInt 5]]⟩
  ∧ (∀ (df : Rel) (gcols tcols : List String) (out : Rel),
      groupby df gcols tcols "sum" = .ok out →
      out.cols = gcols ++ tcols
      ∧ (out.rows.map (fun r => r.take gcols.length)).Nodup
      ∧ List.Pairwise keyLeP (out.rows.map (fun r => r.take gcols.length))) := by
  refine ⟨by decide, ?_⟩
  intro df gcols tcols out h
  have h2 : pdGroupAgg df gcols tcols "sum" = .ok out := h
  have hshape := pdGroupAgg_ok_shape h2
  have hklen : ∀ k ∈ List.insertionSort keyLeP ((df.rows.map (keyOf df.cols gcols)).dedup),
      k.length = gcols.length := by
    intro k hk
    have h1 : k ∈ (df.rows.map (keyOf df.cols gcols)).dedup :=
      (List.perm_insertionSort keyLeP _).mem_iff.mp hk
    obtain ⟨r, _, rfl⟩ := List.mem_map.mp (List.mem_dedup.mp h1)
    exact length_keyOf df.cols gcols r
  have hmap : out.rows.map (fun r => r.take gcols.length)
      = List.insertionSort keyLeP ((df.rows.map (keyOf df.cols gcols)).dedup) := by
    rw [hshape.2, List.map_map]
    have hpt : ∀ k ∈ List.insertionSort keyLeP ((df.rows.map (keyOf df.cols gcols)).dedup),
        ((fun r : List Val => r.take gcols.length) ∘ (fun k => k ++ tcols.map (fun c =>
          aggRed "sum" ((df.rows.filter (fun r => keyOf df.cols gcols r = k)).map
            (fun r => getAt df.cols r c))))) k = id k := by
      intro k hk
      show (k ++ _).take gcols.length = k
      rw [← hklen k hk]
      exact List.take_left k _
    rw [List.map_congr_left hpt, List.map_id]
  refine ⟨hshape.1, ?_, ?_⟩
  · rw [hmap]
    exact ((List.perm_insertionSort keyLeP _).nodup_iff).mpr (List.nodup_dedup _)
  · rw [hmap]
    exact List.sorted_insertionSort keyLeP _

/-- Claim C5 witness: the general part applied to the example instance. -/
theorem groupby_sum_spec_witness :
    (Rel.mk ["g", "x"] [[.vStr "a", .vInt 4], [.vStr "b", .vInt 5]]).cols = ["g"] ++ ["x"] :=
  (groupby_sum_spec.2 ⟨["g", "x"],
    [[.vStr "a", .vInt 1], [.vStr "a", .vInt 3], [.vStr "b", .vInt 5]]⟩
    ["g"] ["x"] ⟨["g", "x"], [[.vStr "a", .vInt 4], [.vStr "b", .vInt 5]]⟩
    groupby_sum_spec.1).1

/-! ## Claim C6 -/

/-- Claim C6 counterexample: on a relation with columns b, a and an empty drop
list, selecting the dropped relation's columns keeps the original order b, a
while columns-difference sorts lexicographically to a, b, so the two column
lists are not equal. -/
theorem select_drop_diff_order_cx :
    drop_columns ⟨["b", "a"], []⟩ ([] : List String) = .ok ⟨["b", "a"], []⟩
    ∧ select_columns ⟨["b", "a"], []⟩ ["b", "a"] = .ok ⟨["b", "a"], []⟩
    ∧ get_columns_difference ⟨["b", "a"], []⟩ ⟨[], []⟩ = ["a", "b"]
    ∧ ((["b", "a"] : List String) = ["a", "b"]) = False :=
  ⟨by decide, by decide, by decide, eq_false (by decide)⟩

/-- Claim C6 as amended: for a relation with unique column names and a column
list C contained in them, the columns of select(R, columns of
drop_columns(R, C)) are a permutation of columns_difference(R, C): the same
names, with select keeping R's original order while columns-difference is
lexicographically sorted. -/
theorem select_drop_diff_perm (R S : Rel) (C : List String) (D RD : Rel)
    (hC : ∀ c ∈ C, c ∈ R.cols) (hnd : R.cols.Nodup) (hS : S.cols = C)
    (hD : drop_columns R C = .ok D) (hsel : select_columns R D.cols = .ok RD) :
    RD.cols.Perm (get_columns_difference R S) := by
  unfold drop_columns at hD
  rw [if_pos hC] at hD
  have hDv := Except.ok.inj hD
  unfold select_columns at hsel
  split at hsel
  · have hRD := Except.ok.inj hsel
    have hRDc : RD.cols = D.cols := by rw [← hRD]
    have hDc : D.cols = R.cols.filter (fun c => c ∉ C) := by rw [← hDv]
    rw [hRDc, hDc]
    unfold get_columns_difference
    rw [hS]
    have hnd2 : (R.cols.filter (fun c => c ∉ C)).Nodup := List.Nodup.filter _ hnd
    rw [List.dedup_eq_self.mpr hnd2]
    exact (List.perm_insertionSort strLeP _).symm
  · cases hsel

/-- Claim C6 witness at a two-column relation. -/
theorem select_drop_diff_perm_witness :
    (Rel.mk ["a"] []).cols.Perm (get_columns_difference ⟨["a", "b"], []⟩ ⟨["b"], []⟩) :=
  select_drop_diff_perm ⟨["a", "b"], []⟩ ⟨["b"], []⟩ ["b"] ⟨["a"], []⟩ ⟨["a"], []⟩
    (by decide) (by decide) rfl (by decide) (by decide)

/-! ## Claim C7 -/

/-- Claim C7 counterexample: when the timestamp column is itself named p_ano,
the first default-mapping entry overwrites it with year integers, the month
step then fails on the no-longer-timestamp column, and p_mes is never
created - so the call does not set p_ano, p_mes, p_dia as the claim states for
every relation with a valid 2024-03-07 timestamp cell. -/
theorem derive_partition_defaults_cx :
    (load_date_partition_cols ⟨["p_ano"], [[.vDate 2024 3 7]]⟩ "p_ano"
      defaultPartitionCfg).2 = some .typeMismatch
    ∧ ("p_mes" ∈ (load_date_partition_cols ⟨["p_ano"], [[.vDate 2024 3 7]]⟩ "p_ano"
        defaultPartitionCfg).1.cols) = False :=
  ⟨by decide, eq_false (by decide)⟩

/-- Claim C7 as amended: for a relation whose timestamp column holds only
timestamps, contains 2024-03-07 at row i, and is not itself one of the
destination columns written before a later read (not p_ano or p_mes), the
default-mapping derivation succeeds and writes 2024, 3, 7 into p_ano, p_mes,
p_dia at that row, overwriting any existing columns of those names. -/
theorem derive_partition_defaults (df : Rel) (col : String) (i : Nat)
    (hWF : WF df) (hmem : col ∈ df.cols)
    (hdates : (colVals df col).all Val.isDate = true)
    (h1 : col ≠ "p_ano") (h2 : col ≠ "p_mes")
    (hi : i < df.rows.length)
    (hcell : getCell df col i = .vDate 2024 3 7) :
    (load_date_partition_cols df col defaultPartitionCfg).2 = none
    ∧ getCell (load_date_partition_cols df col defaultPartitionCfg).1 "p_ano" i = .vInt 2024
    ∧ getCell (load_date_partition_cols df col defaultPartitionCfg).1 "p_mes" i = .vInt 3
    ∧ getCell (load_date_partition_cols df col defaultPartitionCfg).1 "p_dia" i = .vInt 7 := by
  have hvlen : (colVals df col).length = df.rows.length := colVals_length df col
  have hl1 : ((colVals df col).map (partNum "year")).length = df.rows.length := by
    rw [List.length_map, hvlen]
  have hs1 := ldpcStep_ok ("year", "p_ano") (Or.inl rfl) hmem hdates
  dsimp only at hs1
  have hWF1 : WF (setCol df "p_ano" ((colVals df col).map (partNum "year"))) :=
    WF_setCol hWF _ _
  have hrl1 : (setCol df "p_ano" ((colVals df col).map (partNum "year"))).rows.length
      = df.rows.length := rows_length_setCol hl1 _
  have hcv1 : colVals (setCol df "p_ano" ((colVals df col).map (partNum "year"))) col
      = colVals df col := colVals_setCol_other hWF hl1 h1
  have hmem1 : col ∈ (setCol df "p_ano" ((colVals df col).map (partNum "year"))).cols :=
    mem_colsWrite_of_mem hmem
  have hl2 : ((colVals df col).map (partNum "month")).length
      = (setCol df "p_ano" ((colVals df col).map (partNum "year"))).rows.length := by
    rw [List.length_map, hvlen, hrl1]
  have hs2 := ldpcStep_ok ("month", "p_mes") (Or.inr (Or.inl rfl)) hmem1
    (by rw [hcv1]; exact hdates)
  dsimp only at hs2
  rw [hcv1] at hs2
  have hWF2 : WF (setCol (setCol df "p_ano" ((colVals df col).map (partNum "year")))
      "p_mes" ((colVals df col).map (partNum "month"))) := WF_setCol hWF1 _ _
  have hrl2 : (setCol (setCol df "p_ano" ((colVals df col).map (partNum "year")))
      "p_mes" ((colVals df col).map (partNum "month"))).rows.length = df.rows.length := by
    rw [rows_length_setCol hl2, hrl1]
  have hcv2 : colVals (setCol (setCol df "p_ano" ((colVals df col).map (partNum "year")))
      "p_mes" ((colVals df col).map (partNum "month"))) col = colVals df col := by
    rw [colVals_setCol_other hWF1 hl2 h2, hcv1]
  have hmem2 : col ∈ (setCol (setCol df "p_ano" ((colVals df col).map (partNum "year")))
      "p_mes" ((colVals df col).map (partNum "month"))).cols := mem_colsWrite_of_mem hmem1
  have hl3 : ((colVals df col).map (partNum "day")).length
      = (setCol (setCol df "p_ano" ((colVals df col).map (partNum "year")))
        "p_mes" ((colVals df col).map (partNum "month"))).rows.length := by
    rw [List.length_map, hvlen, hrl2]
  have hs3 := ldpcStep_ok ("day", "p_dia") (Or.inr (Or.inr rfl)) hmem2
    (by rw [hcv2]; exact hdates)
  dsimp only at hs3
  rw [hcv2] at hs3
  have hrun : load_date_partition_cols df col defaultPartitionCfg
      = (setCol (setCol (setCol df "p_ano" ((colVals df col).map (partNum "year")))
          "p_mes" ((colVals df col).map (partNum "month")))
          "p_dia" ((colVals df col).map (partNum "day")), none) := by
    show (match ldpcStep df col ("year", "p_ano") with
      | Except.ok d => load_date_partition_cols d col [("month", "p_mes"), ("day", "p_dia")]
      | Except.error e => (df, some e)) = _
    rw [hs1]
    show (match ldpcStep (setCol df "p_ano" ((colVals df col).map (partNum "year")))
        col ("month", "p_mes") with
      | Except.ok d => load_date_partition_cols d col [("day", "p_dia")]
      | Except.error e => (setCol df "p_ano" ((colVals df col).map (partNum "year")), some e))
      = _
    rw [hs2]
    show (match ldpcStep (setCol (setCol df "p_ano" ((colVals df col).map (partNum "year")))
        "p_mes" ((colVals df col).map (partNum "month"))) col ("day", "p_dia") with
      | Except.ok d => load_date_partition_cols d col []
      | Except.error e => (setCol (setCol df "p_ano" ((colVals df col).map (partNum "year")))
          "p_mes" ((colVals df col).map (partNum "month")), some e)) = _
    rw [hs3]
    rfl
  have hvcell : (colVals df col).getD i Val.vNull = .vDate 2024 3 7 := by
    rw [← getCell_eq_colVals df col hi]
    exact hcell
  have hivals : i < (colVals df col).length := by rw [hvlen]; exact hi
  have hrl3 : (setCol (setCol (setCol df "p_ano" ((colVals df col).map (partNum "year")))
      "p_mes" ((colVals df col).map (partNum "month")))
      "p_dia" ((colVals df col).map (partNum "day"))).rows.length = df.rows.length := by
    rw [rows_length_setCol (by rw [List.length_map, hvlen, hrl2]), hrl2]
  refine ⟨by rw [hrun], ?_, ?_, ?_⟩
  · have e1 : colVals (setCol (setCol (setCol df "p_ano"
        ((colVals df col).map (partNum "year")))
        "p_mes" ((colVals df col).map (partNum "month")))
        "p_dia" ((colVals df col).map (partNum "day"))) "p_ano"
        = (colVals df col).map (partNum "year") := by
      rw [colVals_setCol_other hWF2 (by rw [List.length_map, hvlen, hrl2]) (by decide),
        colVals_setCol_other hWF1 hl2 (by decide),
        colVals_setCol_same hWF hl1]
    rw [hrun]
    rw [getCell_eq_colVals _ _ (by rw [hrl3]; exact hi), e1,
      getD_map_lt (partNum "year") hivals _ Val.vNull, hvcell]
    rfl
  · have e2 : colVals (setCol (setCol (setCol df "p_ano"
        ((colVals df col).map (partNum "year")))
        "p_mes" ((colVals df col).map (partNum "month")))
        "p_dia" ((colVals df col).map (partNum "day"))) "p_mes"
        = (colVals df col).map (partNum "month") := by
      rw [colVals_setCol_other hWF2 (by rw [List.length_map, hvlen, hrl2]) (by decide),
        colVals_setCol_same hWF1 hl2]
    rw [hrun]
    rw [getCell_eq_colVals _ _ (by rw [hrl3]; exact hi), e2,
      getD_map_lt (partNum "month") hivals _ Val.vNull, hvcell]
    rfl
  · have e3 : colVals (setCol (setCol (setCol df "p_ano"
        ((colVals df col).map (partNum "year")))
        "p_mes" ((colVals df col).map (partNum "month")))
        "p_dia" ((colVals df col).map (partNum "day"))) "p_dia"
        = (colVals df col).map (partNum "day") := by
      rw [colVals_setCol_same hWF2 (by rw [List.length_map, hvlen, hrl2])]
    rw [hrun]
    rw [getCell_eq_colVals _ _ (by rw [hrl3]; exact hi), e3,
      getD_map_lt (partNum "day") hivals _ Val.vNull, hvcell]
    rfl

/-- Claim C7 witness at a one-row relation. -/
theorem derive_partition_defaults_witness :
    (load_date_partition_cols ⟨["ts"], [[.vDate 2024 3 7]]⟩ "ts" defaultPartitionCfg).2 = none
    ∧ getCell (load_date_partition_cols ⟨["ts"], [[.vDate 2024 3 7]]⟩ "ts"
        defaultPartitionCfg).1 "p_ano" 0 = .vInt 2024
    ∧ getCell (load_date_partition_cols ⟨["ts"], [[.vDate 2024 3 7]]⟩ "ts"
        defaultPartitionCfg).1 "p_mes" 0 = .vInt 3
    ∧ getCell (load_date_partition_cols ⟨["ts"], [[.vDate 2024 3 7]]⟩ "ts"
        defaultPartitionCfg).1 "p_dia" 0 = .vInt 7 :=
  derive_partition_defaults ⟨["ts"], [[.vDate 2024 3 7]]⟩ "ts" 0 (by decide) (by decide)
    (by decide) (by decide) (by decide) (by decide) (by decide)

/-! ## Claim C8 -/

/-- Claim C8 counterexample: an earlier valid entry whose destination is the
timestamp column itself overwrites it, so a later valid entry fails with the
type-mismatch error before the invalid identifier bogus is ever reached - the
call raises, but not the invalid-partition-key error the claim names. -/
theorem derive_invalid_key_masked_cx :
    (load_date_partition_cols ⟨["ts"], [[.vDate 2024 1 2]]⟩ "ts"
      [("year", "ts"), ("month", "m"), ("bogus", "x")]).2 = some .typeMismatch
    ∧ (some Err.typeMismatch = some Err.partitionKeyError) = False :=
  ⟨by decide, eq_false (by decide)⟩

/-- Claim C8 as amended: when the timestamp column holds timestamps and no
mapping destination overwrites it, a mapping containing any identifier outside
year, month, day makes the call raise the invalid-partition-key error; and the
destination columns of entries processed before the invalid one have already
been written in place, so the failed call leaves a partially mutated relation
(the mutation is not atomic). -/
theorem derive_invalid_key_raises :
    (∀ (cfg : List (String × String)) (df : Rel) (col : String), WF df → col ∈ df.cols →
      (colVals df col).all Val.isDate = true →
      (∀ kv ∈ cfg, kv.2 ≠ col) →
      (∃ kv ∈ cfg, ¬ (kv.1 = "year" ∨ kv.1 = "month" ∨ kv.1 = "day")) →
      (load_date_partition_cols df col cfg).2 = some .partitionKeyError)
  ∧ load_date_partition_cols ⟨["ts"], [[.vDate 2024 3 7]]⟩ "ts"
      [("year", "p_ano"), ("bogus", "x")]
      = (⟨["ts", "p_ano"], [[.vDate 2024 3 7, .vInt 2024]]⟩, some .partitionKeyError) := by
  refine ⟨?_, by decide⟩
  intro cfg
  induction cfg with
  | nil =>
    intro df col _ _ _ _ hbad
    obtain ⟨kv, hkv, _⟩ := hbad
    cases hkv
  | cons kv rest ih =>
    intro df col hWF hmem hdates hdest hbad
    by_cases hk : kv.1 = "year" ∨ kv.1 = "month" ∨ kv.1 = "day"
    · have hs := ldpcStep_ok kv hk hmem hdates
      have hred : load_date_partition_cols df col (kv :: rest)
          = load_date_partition_cols
              (setCol df kv.2 ((colVals df col).map (partNum kv.1))) col rest := by
        show (match ldpcStep df col kv with
          | Except.ok d => load_date_partition_cols d col rest
          | Except.error e => (df, some e)) = _
        rw [hs]
      rw [hred]
      have hvlen : ((colVals df col).map (partNum kv.1)).length = df.rows.length := by
        rw [List.length_map, colVals_length]
      apply ih
      · exact WF_setCol hWF _ _
      · exact mem_colsWrite_of_mem hmem
      · rw [colVals_setCol_other hWF hvlen
          (fun e => (hdest kv (List.mem_cons_self kv rest)) e.symm)]
        exact hdates
      · exact fun v hv => hdest v (List.mem_cons_of_mem kv hv)
      · obtain ⟨kv0, hkv0, hbad0⟩ := hbad
        rcases List.mem_cons.mp hkv0 with he | he
        · exact absurd hk (he ▸ hbad0)
        · exact ⟨kv0, he, hbad0⟩
    · have hs := ldpcStep_invalid df col hk
      show (match ldpcStep df col kv with
        | Except.ok d => load_date_partition_cols d col rest
        | Except.error e => (df, some e)).2 = _
      rw [hs]

/-- Claim C8 witness: the universally quantified part at a one-entry invalid
mapping. -/
theorem derive_invalid_key_raises_witness :
    (load_date_partition_cols ⟨["ts"], [[.vDate 2024 1 1]]⟩ "ts" [("bogus", "x")]).2
      = some .partitionKeyError :=
  derive_invalid_key_raises.1 [("bogus", "x")] ⟨["ts"], [[.vDate 2024 1 1]]⟩ "ts"
    (by decide) (by decide) (by decide) (by decide)
    ⟨("bogus", "x"), by decide, by decide⟩

/-! ## Claim C9 -/

/-- Claim C9 counterexample: with the mapping sending year to the timestamp
column itself, one application succeeds and overwrites the column with
integers, and a second application then fails on the integer column - so
applying twice is not the same as applying once for every valid-timestamp
relation and mapping. -/
theorem derive_idempotent_cx :
    load_date_partition_cols ⟨["ts"], [[.vDate 2024 3 7]]⟩ "ts" [("year", "ts")]
      = (⟨["ts"], [[.vInt 2024]]⟩, none)
    ∧ (load_date_partition_cols ⟨["ts"], [[.vInt 2024]]⟩ "ts" [("year", "ts")]).2
      = some .typeMismatch :=
  ⟨by decide, by decide⟩

/-- Claim C9 as amended: for a relation with unique column names whose
timestamp column holds timestamps, and a mapping with valid calendar-part
identifiers none of whose destination columns is the timestamp column itself,
re-running the derivation on the already-derived relation rewrites every
destination column with identical values: applying twice equals applying
once. -/
theorem derive_partition_idempotent (df : Rel) (col : String)
    (cfg : List (String × String)) (hWF : WF df) (hnd : df.cols.Nodup)
    (hmem : col ∈ df.cols) (hdates : (colVals df col).all Val.isDate = true)
    (hdest : ∀ kv ∈ cfg, kv.2 ≠ col)
    (hkeys : ∀ kv ∈ cfg, kv.1 = "year" ∨ kv.1 = "month" ∨ kv.1 = "day") :
    load_date_partition_cols (load_date_partition_cols df col cfg).1 col cfg
      = load_date_partition_cols df col cfg := by
  have hA := ldpc_eq_applyWrites hWF hmem hdates hdest hkeys
  have hwlen : ∀ w ∈ partWrites (colVals df col) cfg, w.2.length = df.rows.length := by
    intro w hw
    obtain ⟨kv, _, rfl⟩ := List.mem_map.mp hw
    rw [List.length_map, colVals_length]
  have hwname : ∀ w ∈ partWrites (colVals df col) cfg, w.1 ≠ col := by
    intro w hw
    obtain ⟨kv, hkv, rfl⟩ := List.mem_map.mp hw
    exact hdest kv hkv
  have hT_cv : colVals (applyWrites df (partWrites (colVals df col) cfg)) col
      = colVals df col := colVals_applyWrites_other hWF hwlen hwname
  have hB := ldpc_eq_applyWrites (WF_applyWrites hWF) (mem_cols_applyWrites hmem)
    (by rw [hT_cv]; exact hdates) hdest hkeys
  rw [hA]
  show load_date_partition_cols (applyWrites df (partWrites (colVals df col) cfg)) col cfg
    = (applyWrites df (partWrites (colVals df col) cfg), none)
  rw [hB, hT_cv, applyWrites_twice hWF hnd hwlen]

/-- Claim C9 witness at a one-row relation with the default mapping. -/
theorem derive_partition_idempotent_witness :
    load_date_partition_cols
        (load_date_partition_cols ⟨["ts"], [[.vDate 2024 3 7]]⟩ "ts" defaultPartitionCfg).1
        "ts" defaultPartitionCfg
      = load_date_partition_cols ⟨["ts"], [[.vDate 2024 3 7]]⟩ "ts" defaultPartitionCfg :=
  derive_partition_idempotent ⟨["ts"], [[.vDate 2024 3 7]]⟩ "ts" defaultPartitionCfg
    (by decide) (by decide) (by decide) (by decide) (by decide) (by decide)

/-! ## Claim C10 -/

/-- Claim C10: every operator other than the constant load and the
partition-key derivation leaves its input relations untouched: over the
reference store, cast, select, drop, filter, columns-difference, the two
lambda applies, join, and group-by preserve every pre-existing object (join's
only write is the in-place suffix cleanup on its own freshly allocated merge
result). -/
theorem operators_preserve_inputs :
    (∀ (s : Store) (r : Nat) (col t : String), preservesStore s (cast_columnS s r col t).1)
  ∧ (∀ (s : Store) (r : Nat) (cs : List String), preservesStore s (select_columnsS s r cs).1)
  ∧ (∀ (s : Store) (r : Nat) (cs : List String), preservesStore s (drop_columnsS s r cs).1)
  ∧ (∀ (s : Store) (r : Nat) (col : String) (vals : List Val),
      preservesStore s (filter_columnS s r col vals).1)
  ∧ (∀ (s : Store) (r1 r2 : Nat), preservesStore s (get_columns_differenceS s r1 r2).1)
  ∧ (∀ (s : Store) (r : Nat) (col : String) (func : List Val → Val) (empty : Bool),
      preservesStore s (apply_lambdaS s r col func empty).1)
  ∧ (∀ (s : Store) (r : Nat) (cs : List String) (func : List Val → Val),
      preservesStore s (apply_df_lambdaS s r cs func).1)
  ∧ (∀ (s : Store) (r1 r2 : Nat) (lo ro onk : Option (List String)) (how : String)
      (suf : String × String), preservesStore s (joinS s r1 r2 lo ro onk how suf).1)
  ∧ (∀ (s : Store) (r : Nat) (gcols tcols : List String) (how : String),
      preservesStore s (groupbyS s r gcols tcols how).1) := by
  refine ⟨fun s _ _ _ => preservesStore_refl s, ?_, ?_, ?_,
    fun s _ _ => preservesStore_refl s, fun s _ _ _ _ => preservesStore_refl s,
    fun s _ _ _ => preservesStore_refl s, ?_, ?_⟩
  · intro s r cs
    unfold select_columnsS
    split
    · exact preservesStore_alloc s _
    · exact preservesStore_refl s
  · intro s r cs
    unfold drop_columnsS
    split
    · exact preservesStore_alloc s _
    · exact preservesStore_refl s
  · intro s r col vals
    unfold filter_columnS
    split
    · exact preservesStore_alloc s _
    · exact preservesStore_refl s
  · intro s r1 r2 lo ro onk how suf
    unfold joinS
    split
    · exact preservesStore_alloc_write s _ _
    · exact preservesStore_refl s
  · intro s r gcols tcols how
    unfold groupbyS
    split
    · exact preservesStore_alloc s _
    · exact preservesStore_refl s

/-- Claim C10 witness: the join conjunct at a one-object store. -/
theorem operators_preserve_inputs_witness :
    readRef ((joinS [⟨["id", "v"], [[.vInt 1, .vInt 10]]⟩] 0 0 none none (some ["id"])
      "inner" ("", "_y")).1) 0 = ⟨["id", "v"], [[.vInt 1, .vInt 10]]⟩ := by
  rw [operators_preserve_inputs.2.2.2.2.2.2.2.1
    [⟨["id", "v"], [[.vInt 1, .vInt 10]]⟩] 0 0 none none (some ["id"]) "inner" ("", "_y")
    0 (by decide)]
  rfl

end PandasDwm

